import Mathlib

/-!
Verification of the archetype-based columnar gear-data store
(`src/rust/hwphysics/src/data.rs`) against its natural-language specification.

Modelling conventions (shallow embedding):

* Entity identifiers (`GearId`, a `NonZeroU16` in the source) are `Nat`s;
  validity (`1 ≤ id ≤ 65535`) is tracked by the predicate `ValidId`.
* Machine integers (`u16`, `u64`, `usize`) become `Nat` with explicit
  wrap/overflow handling exactly where the source can overflow
  (the `u16` sum of component sizes in `DataBlock.new`).
* A component column is modelled at value granularity: every byte-level
  `copy_nonoverlapping` in the source copies one whole component value at a
  slot-aligned offset, so a column is a function `Nat → Option Nat`
  (slot ↦ cell, `none` = uninitialized bytes).  This is faithful because all
  source accesses to a column are whole-value reads/writes at `slot * size`.
* Fallible situations become `Except Failure`:
  - `debug_assert!` failures (the repository is exercised in its own test
    suite under the debug profile, where these abort) are
    `Failure.assertViolation`,
  - `Option::unwrap` on `None` is `Failure.unwrapFailed`,
  - slice indexing out of bounds is `Failure.indexOutOfRange`, except for the
    entity-lookup table where it is `Failure.identifierOutOfRange` (the
    spec error kind IdentifierOutOfRange); the `1 ≤ id` side of that guard
    models the `NonZeroU16` type constraint of `GearId`,
  - `u16` arithmetic overflow (a debug-profile panic) is
    `Failure.arithmeticOverflow`.
* Rust `TypeId::of::<T>` plus `size_of::<T>` plus `needs_drop::<T>` become an
  explicit record `RType`.
-/

/-- A single component cell: `none` models uninitialized bytes. -/
abbrev Cell := Option Nat

/-- Pointwise function update, used for columns, identifier arrays and the
lookup table. -/
def updFn {α : Type} (f : Nat → α) (i : Nat) (v : α) : Nat → α :=
  fun j => if j = i then v else f j

/-- Failure modes: every place the Rust source can panic (debug profile). -/
inductive Failure where
  | unregisteredType
  | duplicateType
  | assertViolation (msg : String)
  | unwrapFailed
  | indexOutOfRange
  | identifierOutOfRange
  | arithmeticOverflow
deriving DecidableEq, Repr

/-- A registered record type: its `TypeId`, byte size and whether it needs
destruction (`std::mem::needs_drop`). -/
structure RType where
  tid : Nat
  size : Nat
  needsDrop : Bool
deriving DecidableEq, Repr

/-- `struct DataBlock` of the source.  `component_blocks` pointers become the
partial column map `columns`; the identifier array becomes `ids`.  All data
cells of a fresh block are uninitialized (`MaybeUninit` in the source). -/
structure DataBlock where
  maxElements : Nat
  elementsCount : Nat
  ids : Nat → Nat
  columns : Nat → Option (Nat → Cell)

instance : Inhabited DataBlock :=
  ⟨{ maxElements := 0, elementsCount := 0, ids := fun _ => 0, columns := fun _ => none }⟩

/-- `const BLOCK_SIZE: usize = 32768`. -/
def BLOCK_SIZE : Nat := 32768

/-- `size_of::<GearId>()`: a gear identifier is a nonzero 16-bit value. -/
def gearIdSize : Nat := 2

/-- `is_full` of `DataBlock`. -/
def DataBlock.isFull (b : DataBlock) : Bool :=
  b.elementsCount == b.maxElements

/-- Bit population count (`u64::count_ones`), written with explicit fuel so
that it reduces definitionally on concrete inputs. -/
def countOnesAux : Nat → Nat → Nat
  | 0, _ => 0
  | fuel + 1, n => if n == 0 then 0 else n % 2 + countOnesAux fuel (n / 2)

def countOnes (n : Nat) : Nat := countOnesAux n n

/-- Per-entity component footprint of a mask: the sum of the sizes of the
types whose bit is set in the mask (`total_size` in `DataBlock::new`). -/
def totalSizeOf (mask : Nat) (elementSizes : List Nat) : Nat :=
  ((List.range elementSizes.length).filter
    (fun i => mask &&& (1 <<< i) != 0)).foldl
    (fun acc i => acc + elementSizes.getD i 0) 0

/-- `DataBlock::new(mask, element_sizes)`.  The `u16` sum of the selected
component sizes panics on overflow in the debug profile, hence the
`arithmeticOverflow` guard; `max_elements` is the block budget divided by the
per-entity footprint. -/
def DataBlock.new (mask : Nat) (elementSizes : List Nat) : Except Failure DataBlock :=
  let totalSize := totalSizeOf mask elementSizes
  if totalSize < 65536 then
    .ok { maxElements := BLOCK_SIZE / (totalSize + gearIdSize)
          elementsCount := 0
          ids := fun _ => 0
          columns := fun i =>
            if i < elementSizes.length && mask &&& (1 <<< i) != 0 then
              some (fun _ => (none : Cell))
            else none }
  else .error .arithmeticOverflow

/-- `struct LookupEntry`: `index` stores slot + 1 (a `NonZeroU16`). -/
structure LookupEntry where
  index : Option Nat
  blockIndex : Nat
deriving DecidableEq, Repr

/-- `LookupEntry::default()`. -/
def LookupEntry.empty : LookupEntry := ⟨none, 0⟩

/-- `LookupEntry::new(block_index, index)`. -/
def LookupEntry.make (blockIndex index : Nat) : LookupEntry :=
  ⟨some (index + 1), blockIndex⟩

/-- Number of entries of the lookup table: `u16::max_value() as usize`. -/
def lookupLen : Nat := 65535

/-- A well-formed (nonzero 16-bit) gear identifier. -/
def ValidId (gid : Nat) : Prop := 1 ≤ gid ∧ gid ≤ lookupLen

instance (gid : Nat) : Decidable (ValidId gid) := by
  unfold ValidId; infer_instance

/-- Reading `self.lookup[gear_id.get() as usize - 1]`; `none` models the
panic on an identifier outside the table (impossible for a real `GearId`). -/
def readLookupF (lookup : Nat → LookupEntry) (gid : Nat) : Option LookupEntry :=
  if 1 ≤ gid ∧ gid - 1 < lookupLen then some (lookup (gid - 1)) else none

/-- Writing `self.lookup[gear_id.get() as usize - 1] = e`. -/
def writeLookupF (lookup : Nat → LookupEntry) (gid : Nat) (e : LookupEntry) :
    Option (Nat → LookupEntry) :=
  if 1 ≤ gid ∧ gid - 1 < lookupLen then some (updFn lookup (gid - 1) e) else none

/-- `struct GearDataManager`. -/
structure GearDataManager where
  types : List Nat
  blocks : List DataBlock
  blockMasks : List Nat
  elementSizes : Nat → Nat
  lookup : Nat → LookupEntry

/-- `GearDataManager::new()`. -/
def GearDataManager.new : GearDataManager :=
  { types := []
    blocks := []
    blockMasks := []
    elementSizes := fun _ => 0
    lookup := fun _ => LookupEntry.empty }

/-- `self.element_sizes[0..self.types.len()]`. -/
def GearDataManager.prefixSizes (m : GearDataManager) : List Nat :=
  (List.range m.types.length).map m.elementSizes

/-- `get_type_index::<T>()`. -/
def GearDataManager.getTypeIndex (m : GearDataManager) (t : RType) : Option Nat :=
  m.types.findIdx? (· == t.tid)

/-- `ensure_block(mask)`: find the first block with exactly this mask and
spare capacity, else allocate a new block for the mask. -/
def GearDataManager.ensureBlock (m : GearDataManager) (mask : Nat) :
    Except Failure (GearDataManager × Nat) :=
  match (List.range m.blockMasks.length).find?
      (fun i => m.blockMasks.getD i 0 == mask && !(m.blocks.getD i default).isFull) with
  | some index => .ok (m, index)
  | none =>
    match DataBlock.new mask m.prefixSizes with
    | .error e => .error e
    | .ok b =>
      .ok ({ m with blocks := m.blocks ++ [b], blockMasks := m.blockMasks ++ [mask] },
           m.blocks.length)

/-- `add_to_block(gear_id, block_index, value)`.  Note that the source writes
the value through `component_blocks[0]` — the column of type index 0 — not
through the column of the value type; the unwrap fails whenever the block
mask does not contain bit 0. -/
def GearDataManager.addToBlock (m : GearDataManager) (gearId blockIndex value : Nat) :
    Except Failure GearDataManager :=
  match m.blockMasks[blockIndex]? with
  | none => .error .indexOutOfRange
  | some mask =>
    if countOnes mask == 1 then
      match m.blocks[blockIndex]? with
      | none => .error .indexOutOfRange
      | some block =>
        if block.elementsCount < block.maxElements then
          match block.columns 0 with
          | none => .error .unwrapFailed
          | some col =>
            let col1 := updFn col block.elementsCount (some value)
            let block1 := { block with columns := updFn block.columns 0 (some col1) }
            let index := block1.elementsCount
            match writeLookupF m.lookup gearId (LookupEntry.make blockIndex index) with
            | none => .error .identifierOutOfRange
            | some lookup1 =>
              if index < block1.maxElements then
                let block2 := { block1 with
                  ids := updFn block1.ids index gearId
                  elementsCount := block1.elementsCount + 1 }
                .ok { m with blocks := m.blocks.set blockIndex block2, lookup := lookup1 }
              else .error .indexOutOfRange
        else .error (.assertViolation "block.elements_count < block.max_elements")
    else .error (.assertViolation "block mask count_ones == 1")

/-- One iteration of the column-copy loop of `move_between_blocks` for type
index `i`: copy the source cell at `srcIndex` into the destination cell at
`destIndex`, then (unless the vacated slot is the last occupied one) pull the
last occupied source cell into the vacated source slot. -/
def copyStep (srcMask srcIndex destIndex : Nat) (p : DataBlock × DataBlock) (i : Nat) :
    Except Failure (DataBlock × DataBlock) :=
  if srcMask &&& (1 <<< i) != 0 then
    match p.1.columns i, p.2.columns i with
    | some srcCol, some destCol =>
      let destCol1 := updFn destCol destIndex (srcCol srcIndex)
      let db2 := { p.2 with columns := updFn p.2.columns i (some destCol1) }
      let srcCol1 := updFn srcCol srcIndex (srcCol (p.1.elementsCount - 1))
      let sb2 :=
        if srcIndex < p.1.elementsCount - 1 then
          { p.1 with columns := updFn p.1.columns i (some srcCol1) }
        else p.1
      .ok (sb2, db2)
    | _, _ => .error .unwrapFailed
  else .ok p

/-- The column-copy loop of `move_between_blocks` (`for i in 0..self.types.len()`). -/
def copyColumns (typesLen srcMask srcIndex destIndex : Nat) (sb db : DataBlock) :
    Except Failure (DataBlock × DataBlock) :=
  (List.range typesLen).foldlM (copyStep srcMask srcIndex destIndex) (sb, db)

/-- `move_between_blocks(src_block_index, src_index, dest_block_index)`. -/
def GearDataManager.moveBetweenBlocks (m : GearDataManager)
    (srcBlockIndex srcIndex destBlockIndex : Nat) : Except Failure GearDataManager :=
  if srcBlockIndex != destBlockIndex then
    match m.blockMasks[srcBlockIndex]?, m.blockMasks[destBlockIndex]? with
    | some srcMask, some destMask =>
      if srcMask &&& destMask == srcMask then
        match m.blocks[srcBlockIndex]?, m.blocks[destBlockIndex]? with
        | some srcBlock, some destBlock =>
          if srcIndex < srcBlock.elementsCount then
            if !destBlock.isFull then
              let destIndex := destBlock.elementsCount
              match copyColumns m.types.length srcMask srcIndex destIndex srcBlock destBlock with
              | .error e => .error e
              | .ok (sb2, db2) =>
                if srcIndex < sb2.maxElements then
                  let gearId := sb2.ids srcIndex
                  let step :=
                    if srcIndex < sb2.elementsCount - 1 then
                      let relocatedIndex := sb2.elementsCount - 1
                      if relocatedIndex < sb2.maxElements then
                        let relocatedId := sb2.ids relocatedIndex
                        let sb3 := { sb2 with ids := updFn sb2.ids srcIndex relocatedId }
                        match writeLookupF m.lookup relocatedId
                            (LookupEntry.make srcBlockIndex srcIndex) with
                        | none => Except.error Failure.identifierOutOfRange
                        | some lk => Except.ok (sb3, lk)
                      else Except.error Failure.indexOutOfRange
                    else Except.ok (sb2, m.lookup)
                  match step with
                  | .error e => .error e
                  | .ok (sb3, lookup1) =>
                    let sb4 := { sb3 with elementsCount := sb3.elementsCount - 1 }
                    let destIndex2 := db2.elementsCount
                    if destIndex2 < db2.maxElements then
                      let db3 := { db2 with
                        ids := updFn db2.ids destIndex2 gearId
                        elementsCount := db2.elementsCount + 1 }
                      match writeLookupF lookup1 gearId
                          (LookupEntry.make destBlockIndex destIndex2) with
                      | none => .error .identifierOutOfRange
                      | some lookup2 =>
                        .ok { m with
                          blocks := (m.blocks.set srcBlockIndex sb4).set destBlockIndex db3
                          lookup := lookup2 }
                    else .error .indexOutOfRange
                else .error .indexOutOfRange
            else .error (.assertViolation "dest_block is not full")
          else .error (.assertViolation "src_index < src_block.elements_count")
        | _, _ => .error .indexOutOfRange
      else .error (.assertViolation "src_mask and dest_mask == src_mask")
    | _, _ => .error .indexOutOfRange
  else .error (.assertViolation "src_block_index != dest_block_index")

/-- One iteration of the column-copy loop of `remove_from_block` for type
index `i`: unless the vacated slot is the last occupied one, pull the last
occupied cell of the column (when present) into the vacated slot. -/
def rfbStep (index : Nat) (b : DataBlock) (i : Nat) : DataBlock :=
  if index < b.elementsCount - 1 then
    match b.columns i with
    | some col =>
      let col1 := updFn col index (col (b.elementsCount - 1))
      { b with columns := updFn b.columns i (some col1) }
    | none => b
  else b

/-- The bookkeeping tail of `remove_from_block`, taking the block as left by
the column-copy loop (the loop only alters columns: see `rfbStep`): clear the
vacated identifier entry, swap the last identifier into the vacated slot
(updating its entry) unless the vacated slot was the last occupied one, and
decrement the occupancy. -/
def removeFromBlockTail (m : GearDataManager) (blockIndex index : Nat) (block1 : DataBlock) :
    Except Failure GearDataManager :=
  if index < block1.maxElements then
    match writeLookupF m.lookup (block1.ids index) LookupEntry.empty with
    | none => .error .identifierOutOfRange
    | some lookup1 =>
      if index < block1.elementsCount - 1 then
        let relocatedIndex := block1.elementsCount - 1
        if relocatedIndex < block1.maxElements then
          let block2 := { block1 with ids := updFn block1.ids index (block1.ids relocatedIndex) }
          match writeLookupF lookup1 (block2.ids relocatedIndex)
              (LookupEntry.make blockIndex index) with
          | none => .error .identifierOutOfRange
          | some lookup2 =>
            let block3 := { block2 with elementsCount := block2.elementsCount - 1 }
            .ok { m with blocks := m.blocks.set blockIndex block3, lookup := lookup2 }
        else .error .indexOutOfRange
      else
        let block3 := { block1 with elementsCount := block1.elementsCount - 1 }
        .ok { m with blocks := m.blocks.set blockIndex block3, lookup := lookup1 }
  else .error .indexOutOfRange

/-- `remove_from_block(block_index, index)` (swap-removal inside a block).
The copy loop runs over all 64 entries of the manager-level
`element_sizes` array, then the bookkeeping tail updates identifiers, the
lookup table and the occupancy. -/
def GearDataManager.removeFromBlock (m : GearDataManager) (blockIndex index : Nat) :
    Except Failure GearDataManager :=
  match m.blocks[blockIndex]? with
  | none => .error .indexOutOfRange
  | some block =>
    if index < block.elementsCount then
      removeFromBlockTail m blockIndex index ((List.range 64).foldl (rfbStep index) block)
    else .error (.assertViolation "index < block.elements_count")

/-- `u64` bitwise complement, used by `remove` (`!(1 << type_index)`). -/
def u64Not (x : Nat) : Nat := (2 ^ 64 - 1) ^^^ x

/-- `pub fn add<T>(gear_id, value)` — the attach operation. -/
def GearDataManager.add (m : GearDataManager) (t : RType) (gearId value : Nat) :
    Except Failure GearDataManager :=
  match m.getTypeIndex t with
  | some typeIndex =>
    let typeBit := 1 <<< typeIndex
    match readLookupF m.lookup gearId with
    | none => .error .identifierOutOfRange
    | some entry =>
      match entry.index with
      | some index =>
        match m.blockMasks[entry.blockIndex]? with
        | none => .error .indexOutOfRange
        | some mask =>
          let newMask := mask ||| typeBit
          if newMask != mask then
            match m.ensureBlock newMask with
            | .error e => .error e
            | .ok (m1, destBlockIndex) =>
              m1.moveBetweenBlocks entry.blockIndex (index - 1) destBlockIndex
          else .ok m
      | none =>
        match m.ensureBlock typeBit with
        | .error e => .error e
        | .ok (m1, destBlockIndex) => m1.addToBlock gearId destBlockIndex value
  | none => .error .unregisteredType

/-- `pub fn remove_all(gear_id)`. -/
def GearDataManager.removeAll (m : GearDataManager) (gearId : Nat) :
    Except Failure GearDataManager :=
  match readLookupF m.lookup gearId with
  | none => .error .identifierOutOfRange
  | some entry =>
    match entry.index with
    | some index => m.removeFromBlock entry.blockIndex (index - 1)
    | none => .ok m

/-- `pub fn remove<T>(gear_id)` — the detach operation. -/
def GearDataManager.remove (m : GearDataManager) (t : RType) (gearId : Nat) :
    Except Failure GearDataManager :=
  match m.getTypeIndex t with
  | some typeIndex =>
    match readLookupF m.lookup gearId with
    | none => .error .identifierOutOfRange
    | some entry =>
      match entry.index with
      | some index =>
        match m.blockMasks[entry.blockIndex]? with
        | none => .error .indexOutOfRange
        | some mask =>
          let destMask := mask &&& u64Not (1 <<< typeIndex)
          if destMask == 0 then
            m.removeAll gearId
          else
            match m.ensureBlock destMask with
            | .error e => .error e
            | .ok (m1, destBlockIndex) =>
              m1.moveBetweenBlocks entry.blockIndex (index - 1) destBlockIndex
      | none => .ok m
  | none => .error .unregisteredType

/-- `pub fn register<T>()`.  The three `debug_assert!`s run before the
containment check; writing `element_sizes[len]` with `len = 64` is an
out-of-bounds panic on the `[u16; 64]` array. -/
def GearDataManager.register (m : GearDataManager) (t : RType) :
    Except Failure GearDataManager :=
  if t.needsDrop then .error (.assertViolation "needs_drop is false")
  else if !(m.types.length ≤ 64) then .error (.assertViolation "types.len() <= 64")
  else if !(t.size ≤ 65535) then .error (.assertViolation "size_of::<T>() <= u16 max")
  else if t.tid ∈ m.types then .ok m
  else if m.types.length < 64 then
    .ok { m with
      elementSizes := updFn m.elementSizes m.types.length t.size
      types := m.types ++ [t.tid] }
  else .error .indexOutOfRange

/-- One callback invocation of `iter_id`: the slot identifier together with
the cells of the requested columns at that slot, in query order. -/
abbrev Visit := Nat × List Cell

/-- The argument-resolution loop of `iter_id`: map each requested `TypeId` to
its registered type index, building the selector mask; duplicates and
unregistered types are errors. -/
def resolveTypes (types : List Nat) : List Nat → List Nat → Nat →
    Except Failure (List Nat × Nat)
  | [], acc, selector => .ok (acc.reverse, selector)
  | tid :: rest, acc, selector =>
    match types.findIdx? (· == tid) with
    | some i =>
      if selector &&& (1 <<< i) != 0 then .error .duplicateType
      else resolveTypes types rest (i :: acc) (selector ||| (1 <<< i))
    | none => .error .unregisteredType

/-- Resolve the column of type index `ti` of a block
(`block.component_blocks[type_index].unwrap()`). -/
def resolveColumns (b : DataBlock) : List Nat → Option (List (Nat → Cell))
  | [] => some []
  | ti :: rest =>
    match b.columns ti with
    | some col =>
      match resolveColumns b rest with
      | some cols => some (col :: cols)
      | none => none
    | none => none

/-- The block loop of `iter_id`: visit each block (in creation order) whose
mask is a superset of the selector, one callback per occupied slot in index
order. -/
def iterBlocks (m : GearDataManager) (typeIndices : List Nat) (selector : Nat) :
    List Nat → Except Failure (List Visit)
  | [] => .ok []
  | bi :: rest =>
    if m.blockMasks.getD bi 0 &&& selector == selector then
      match m.blocks[bi]? with
      | none => .error .indexOutOfRange
      | some block =>
        match resolveColumns block typeIndices with
        | none => .error .unwrapFailed
        | some cols =>
          match iterBlocks m typeIndices selector rest with
          | .error e => .error e
          | .ok vs =>
            .ok (((List.range block.elementsCount).map
              (fun s => (block.ids s, cols.map (fun c => c s)))) ++ vs)
    else iterBlocks m typeIndices selector rest

/-- `pub fn iter_id<T>(f)`: the query/iteration protocol.  The returned list
is the sequence of callback invocations. -/
def GearDataManager.iterId (m : GearDataManager) (argTypes : List Nat) :
    Except Failure (List Visit) :=
  match resolveTypes m.types argTypes [] 0 with
  | .error e => .error e
  | .ok (typeIndices, selector) =>
    iterBlocks m typeIndices selector (List.range m.blockMasks.length)

/-- The public mutating operations, for reasoning about arbitrary call
sequences. -/
inductive Op where
  | register (t : RType)
  | add (t : RType) (gearId value : Nat)
  | remove (t : RType) (gearId : Nat)
  | removeAll (gearId : Nat)

/-- Run one public operation. -/
def runOp (m : GearDataManager) : Op → Except Failure GearDataManager
  | .register t => m.register t
  | .add t gearId value => m.add t gearId value
  | .remove t gearId => m.remove t gearId
  | .removeAll gearId => m.removeAll gearId

/-- Run a sequence of public operations from a state. -/
def runOps (m : GearDataManager) : List Op → Except Failure GearDataManager
  | [] => .ok m
  | op :: rest =>
    match runOp m op with
    | .error e => .error e
    | .ok m1 => runOps m1 rest

/-- The block stored at index `bi` (blocks are always accessed in bounds by
the verified operations; the default is only a total-function artifact). -/
def blocksAt (blocks : List DataBlock) (bi : Nat) : DataBlock :=
  blocks.getD bi default

/-- The dense-prefix / location-index invariant of the store (spec §3, §8):
every block's occupancy fits its capacity, every occupied slot holds a valid
identifier whose Location Index entry points back at exactly that
(block, slot), and every non-empty Location Index entry points at an occupied
slot storing its owning identifier.  Occupied slots are by construction the
dense prefix `[0, elements_count)` of each column. -/
structure StoreInv (blocks : List DataBlock) (lookup : Nat → LookupEntry) : Prop where
  countLe : ∀ bi, bi < blocks.length →
    (blocksAt blocks bi).elementsCount ≤ (blocksAt blocks bi).maxElements
  slotValid : ∀ bi, bi < blocks.length → ∀ s, s < (blocksAt blocks bi).elementsCount →
    ValidId ((blocksAt blocks bi).ids s)
  slotLookup : ∀ bi, bi < blocks.length → ∀ s, s < (blocksAt blocks bi).elementsCount →
    lookup ((blocksAt blocks bi).ids s - 1) = LookupEntry.make bi s
  entrySound : ∀ j, j < lookupLen → ∀ i, (lookup j).index = some i →
    1 ≤ i ∧ (lookup j).blockIndex < blocks.length ∧
    i - 1 < (blocksAt blocks (lookup j).blockIndex).elementsCount ∧
    (blocksAt blocks (lookup j).blockIndex).ids (i - 1) = j + 1

/-- Store-level invariant: the mask list and block list stay in lock step and
the storage invariant holds. -/
def ManagerInv (m : GearDataManager) : Prop :=
  m.blockMasks.length = m.blocks.length ∧ StoreInv m.blocks m.lookup

/-- Spec-side total read of one column cell of a block. -/
def columnCell (b : DataBlock) (k s : Nat) : Cell :=
  match b.columns k with
  | some col => col s
  | none => none

/-- Modelled from the spec (§4.7), for the refinement claim about iteration:
for every block whose archetype mask is a superset of the selector mask, in
creation order, one callback per occupied slot in index order, carrying the
slot identifier and the cells of the requested columns (in query order). -/
def iterSpecVisits (m : GearDataManager) (typeIndices : List Nat) (selector : Nat) :
    List Visit :=
  ((List.range m.blockMasks.length).filter
    (fun bi => m.blockMasks.getD bi 0 &&& selector == selector)).flatMap
    (fun bi =>
      (List.range (blocksAt m.blocks bi).elementsCount).map
        (fun s => ((blocksAt m.blocks bi).ids s,
          typeIndices.map (fun ti => columnCell (blocksAt m.blocks bi) ti s))))

/-- Every set bit of every block mask has a materialized column in that
block.  This holds in every reachable store (blocks are created with one
column per mask bit) and is a hypothesis of the iteration theorem. -/
def HasMaskColumns (m : GearDataManager) : Prop :=
  ∀ bi, bi < m.blockMasks.length → ∀ k,
    (m.blockMasks.getD bi 0) &&& (1 <<< k) ≠ 0 →
    (blocksAt m.blocks bi).columns k ≠ none

/-- A concrete registered record type (the first-registered one, index 0). -/
def typeA : RType := ⟨0, 4, false⟩

/-- A second concrete registered record type (index 1). -/
def typeB : RType := ⟨1, 4, false⟩

/-- A tiny reachable store: `typeA` registered, gear 1 carrying an A-record
with value 5. -/
def exampleOps : List Op := [.register typeA, .add typeA 1 5]

/-- The store reached by `exampleOps` (total by construction; the error arm
is never taken). -/
def exampleStore : GearDataManager :=
  match runOps GearDataManager.new exampleOps with
  | .ok m => m
  | .error _ => GearDataManager.new

/-- `exampleStore` with `typeB` additionally registered (the error arm is
never taken). -/
def exampleStore2 : GearDataManager :=
  match exampleStore.register typeB with
  | .ok m => m
  | .error _ => exampleStore

/-! ### Basic helper lemmas -/

theorem updFn_same {α : Type} (f : Nat → α) (i : Nat) (v : α) : updFn f i v i = v := by
  simp [updFn]

theorem updFn_other {α : Type} (f : Nat → α) (i j : Nat) (v : α) (h : j ≠ i) :
    updFn f i v j = f j := by
  simp [updFn, h]

theorem blocksAt_set_same (l : List DataBlock) (i : Nat) (b : DataBlock) (h : i < l.length) :
    blocksAt (l.set i b) i = b := by
  unfold blocksAt
  rw [List.getD_eq_getElem?_getD, List.getElem?_set_self (by simpa using h)]
  rfl

theorem blocksAt_set_other (l : List DataBlock) (i j : Nat) (b : DataBlock) (h : j ≠ i) :
    blocksAt (l.set i b) j = blocksAt l j := by
  unfold blocksAt
  rw [List.getD_eq_getElem?_getD, List.getElem?_set_ne (by omega), ← List.getD_eq_getElem?_getD]

theorem blocksAt_append_left (l l2 : List DataBlock) (j : Nat) (h : j < l.length) :
    blocksAt (l ++ l2) j = blocksAt l j := by
  unfold blocksAt
  rw [List.getD_eq_getElem?_getD, List.getElem?_append, if_pos h, ← List.getD_eq_getElem?_getD]

theorem blocksAt_getElem? {l : List DataBlock} {i : Nat} {b : DataBlock}
    (h : l[i]? = some b) : blocksAt l i = b := by
  unfold blocksAt
  rw [List.getD_eq_getElem?_getD, h]
  rfl

theorem lt_length_of_getElem? {α : Type} {l : List α} {i : Nat} {b : α}
    (h : l[i]? = some b) : i < l.length := by
  by_contra hc
  rw [List.getElem?_eq_none (by omega)] at h
  cases h

theorem make_inj {b1 s1 b2 s2 : Nat} (h : LookupEntry.make b1 s1 = LookupEntry.make b2 s2) :
    b1 = b2 ∧ s1 = s2 := by
  simp only [LookupEntry.make, LookupEntry.mk.injEq, Option.some.injEq] at h
  exact ⟨h.2, by omega⟩

theorem validKeyNe {x y : Nat} (hx : 1 ≤ x) (hy : 1 ≤ y) (hne : x ≠ y) : x - 1 ≠ y - 1 := by
  omega

theorem writeLookupF_eq_some {lk : Nat → LookupEntry} {gid : Nat} {e : LookupEntry}
    {lk2 : Nat → LookupEntry} (h : writeLookupF lk gid e = some lk2) :
    1 ≤ gid ∧ gid - 1 < lookupLen ∧ lk2 = updFn lk (gid - 1) e := by
  unfold writeLookupF at h
  split at h
  next hc => exact ⟨hc.1, hc.2, (Option.some.inj h).symm⟩
  next => cases h

theorem readLookupF_eq_some {lk : Nat → LookupEntry} {gid : Nat} {e : LookupEntry}
    (h : readLookupF lk gid = some e) :
    1 ≤ gid ∧ gid - 1 < lookupLen ∧ e = lk (gid - 1) := by
  unfold readLookupF at h
  split at h
  next hc => exact ⟨hc.1, hc.2, (Option.some.inj h).symm⟩
  next => cases h

theorem StoreInv.idsInj {blocks : List DataBlock} {lookup : Nat → LookupEntry}
    (h : StoreInv blocks lookup) {bi bj s sj : Nat}
    (hbi : bi < blocks.length) (hbj : bj < blocks.length)
    (hs : s < (blocksAt blocks bi).elementsCount)
    (hsj : sj < (blocksAt blocks bj).elementsCount)
    (heq : (blocksAt blocks bi).ids s = (blocksAt blocks bj).ids sj) :
    bi = bj ∧ s = sj := by
  have h1 := h.slotLookup bi hbi s hs
  have h2 := h.slotLookup bj hbj sj hsj
  rw [heq, h2] at h1
  have h3 := make_inj h1
  exact ⟨h3.1.symm, h3.2.symm⟩

/-- Swap-removal preserves the storage invariant (relocating case: the
vacated slot is not the last occupied one). -/
theorem storeInv_swapRemove_relocate
    {blocks : List DataBlock} {lookup : Nat → LookupEntry} (hS : StoreInv blocks lookup)
    {bi idx : Nat} (hbi : bi < blocks.length) {b3 : DataBlock}
    (hrel : idx < (blocksAt blocks bi).elementsCount - 1)
    (hids : b3.ids = updFn (blocksAt blocks bi).ids idx
      ((blocksAt blocks bi).ids ((blocksAt blocks bi).elementsCount - 1)))
    (hcount : b3.elementsCount = (blocksAt blocks bi).elementsCount - 1)
    (hmax : b3.maxElements = (blocksAt blocks bi).maxElements) :
    StoreInv (blocks.set bi b3)
      (updFn (updFn lookup ((blocksAt blocks bi).ids idx - 1) LookupEntry.empty)
        ((blocksAt blocks bi).ids ((blocksAt blocks bi).elementsCount - 1) - 1)
        (LookupEntry.make bi idx)) := by
  have hvid : ValidId ((blocksAt blocks bi).ids idx) :=
    hS.slotValid bi hbi idx (by omega)
  have hrid : ValidId ((blocksAt blocks bi).ids ((blocksAt blocks bi).elementsCount - 1)) :=
    hS.slotValid bi hbi _ (by omega)
  have hvl := hS.slotLookup bi hbi idx (by omega)
  have hrl := hS.slotLookup bi hbi ((blocksAt blocks bi).elementsCount - 1) (by omega)
  constructor
  · intro bj hbj
    rw [List.length_set] at hbj
    by_cases hbeq : bj = bi
    · subst hbeq
      rw [blocksAt_set_same _ _ _ hbj, hcount, hmax]
      have := hS.countLe bj hbj
      omega
    · rw [blocksAt_set_other _ _ _ _ hbeq]
      exact hS.countLe bj hbj
  · intro bj hbj s hs
    rw [List.length_set] at hbj
    by_cases hbeq : bj = bi
    · subst hbeq
      rw [blocksAt_set_same _ _ _ hbj] at hs ⊢
      rw [hcount] at hs
      rw [hids]
      by_cases hsidx : s = idx
      · subst hsidx
        rw [updFn_same]
        exact hrid
      · rw [updFn_other _ _ _ _ hsidx]
        exact hS.slotValid bj hbj s (by omega)
    · rw [blocksAt_set_other _ _ _ _ hbeq] at hs ⊢
      exact hS.slotValid bj hbj s hs
  · intro bj hbj s hs
    rw [List.length_set] at hbj
    by_cases hbeq : bj = bi
    · subst hbeq
      rw [blocksAt_set_same _ _ _ hbj] at hs ⊢
      rw [hcount] at hs
      rw [hids]
      by_cases hsidx : s = idx
      · subst hsidx
        rw [updFn_same, updFn_same]
      · rw [updFn_other _ _ _ _ hsidx]
        have hxv : ValidId ((blocksAt blocks bj).ids s) := hS.slotValid bj hbj s (by omega)
        have hxrid : (blocksAt blocks bj).ids s ≠
            (blocksAt blocks bj).ids ((blocksAt blocks bj).elementsCount - 1) := by
          intro heq
          have := (hS.idsInj hbj hbj (by omega) (by omega) heq).2
          omega
        have hxvid : (blocksAt blocks bj).ids s ≠ (blocksAt blocks bj).ids idx := by
          intro heq
          have := (hS.idsInj hbj hbj (by omega) (by omega) heq).2
          omega
        rw [updFn_other _ _ _ _ (validKeyNe hxv.1 hrid.1 hxrid)]
        rw [updFn_other _ _ _ _ (validKeyNe hxv.1 hvid.1 hxvid)]
        exact hS.slotLookup bj hbj s (by omega)
    · rw [blocksAt_set_other _ _ _ _ hbeq] at hs ⊢
      have hxv : ValidId ((blocksAt blocks bj).ids s) := hS.slotValid bj hbj s hs
      have hxrid : (blocksAt blocks bj).ids s ≠
          (blocksAt blocks bi).ids ((blocksAt blocks bi).elementsCount - 1) := by
        intro heq
        exact hbeq (hS.idsInj hbj hbi hs (by omega) heq).1
      have hxvid : (blocksAt blocks bj).ids s ≠ (blocksAt blocks bi).ids idx := by
        intro heq
        exact hbeq (hS.idsInj hbj hbi hs (by omega) heq).1
      rw [updFn_other _ _ _ _ (validKeyNe hxv.1 hrid.1 hxrid)]
      rw [updFn_other _ _ _ _ (validKeyNe hxv.1 hvid.1 hxvid)]
      exact hS.slotLookup bj hbj s hs
  · intro j hj i hidx2
    by_cases hjr : j = (blocksAt blocks bi).ids ((blocksAt blocks bi).elementsCount - 1) - 1
    · subst hjr
      rw [updFn_same] at hidx2 ⊢
      simp only [LookupEntry.make, Option.some.injEq] at hidx2
      subst hidx2
      simp only [LookupEntry.make]
      refine ⟨by omega, ?_, ?_, ?_⟩
      · simpa [List.length_set] using hbi
      · rw [blocksAt_set_same _ _ _ hbi, hcount]
        simpa using hrel
      · rw [blocksAt_set_same _ _ _ hbi, hids]
        simp only [Nat.add_sub_cancel, updFn_same]
        have := hrid.1
        omega
    · rw [updFn_other _ _ _ _ hjr] at hidx2 ⊢
      by_cases hjv : j = (blocksAt blocks bi).ids idx - 1
      · subst hjv
        rw [updFn_same] at hidx2
        cases hidx2
      · rw [updFn_other _ _ _ _ hjv] at hidx2 ⊢
        obtain ⟨h1i, hbj, hlt, hidsj⟩ := hS.entrySound j hj i hidx2
        by_cases hbeq : (lookup j).blockIndex = bi
        · rw [hbeq] at hlt hidsj ⊢
          have hir : i - 1 ≠ (blocksAt blocks bi).elementsCount - 1 := by
            intro heq
            rw [heq] at hidsj
            omega
          have hiv : i - 1 ≠ idx := by
            intro heq
            rw [heq] at hidsj
            omega
          refine ⟨h1i, by simpa [List.length_set] using hbi, ?_, ?_⟩
          · rw [blocksAt_set_same _ _ _ hbi, hcount]
            omega
          · rw [blocksAt_set_same _ _ _ hbi, hids, updFn_other _ _ _ _ hiv]
            exact hidsj
        · refine ⟨h1i, by simpa [List.length_set] using hbj, ?_, ?_⟩
          · rw [blocksAt_set_other _ _ _ _ hbeq]
            exact hlt
          · rw [blocksAt_set_other _ _ _ _ hbeq]
            exact hidsj

/-- Swap-removal preserves the storage invariant (last-slot case: the vacated
slot is the last occupied one, no relocation happens). -/
theorem storeInv_swapRemove_last
    {blocks : List DataBlock} {lookup : Nat → LookupEntry} (hS : StoreInv blocks lookup)
    {bi idx : Nat} (hbi : bi < blocks.length) {b3 : DataBlock}
    (hidx : idx < (blocksAt blocks bi).elementsCount)
    (hlast : ¬ idx < (blocksAt blocks bi).elementsCount - 1)
    (hids : b3.ids = (blocksAt blocks bi).ids)
    (hcount : b3.elementsCount = (blocksAt blocks bi).elementsCount - 1)
    (hmax : b3.maxElements = (blocksAt blocks bi).maxElements) :
    StoreInv (blocks.set bi b3)
      (updFn lookup ((blocksAt blocks bi).ids idx - 1) LookupEntry.empty) := by
  have hvid : ValidId ((blocksAt blocks bi).ids idx) := hS.slotValid bi hbi idx hidx
  constructor
  · intro bj hbj
    rw [List.length_set] at hbj
    by_cases hbeq : bj = bi
    · subst hbeq
      rw [blocksAt_set_same _ _ _ hbj, hcount, hmax]
      have := hS.countLe bj hbj
      omega
    · rw [blocksAt_set_other _ _ _ _ hbeq]
      exact hS.countLe bj hbj
  · intro bj hbj s hs
    rw [List.length_set] at hbj
    by_cases hbeq : bj = bi
    · subst hbeq
      rw [blocksAt_set_same _ _ _ hbj] at hs ⊢
      rw [hcount] at hs
      rw [hids]
      exact hS.slotValid bj hbj s (by omega)
    · rw [blocksAt_set_other _ _ _ _ hbeq] at hs ⊢
      exact hS.slotValid bj hbj s hs
  · intro bj hbj s hs
    rw [List.length_set] at hbj
    by_cases hbeq : bj = bi
    · subst hbeq
      rw [blocksAt_set_same _ _ _ hbj] at hs ⊢
      rw [hcount] at hs
      rw [hids]
      have hxv : ValidId ((blocksAt blocks bj).ids s) := hS.slotValid bj hbj s (by omega)
      have hxvid : (blocksAt blocks bj).ids s ≠ (blocksAt blocks bj).ids idx := by
        intro heq
        have := (hS.idsInj hbj hbj (by omega) hidx heq).2
        omega
      rw [updFn_other _ _ _ _ (validKeyNe hxv.1 hvid.1 hxvid)]
      exact hS.slotLookup bj hbj s (by omega)
    · rw [blocksAt_set_other _ _ _ _ hbeq] at hs ⊢
      have hxv : ValidId ((blocksAt blocks bj).ids s) := hS.slotValid bj hbj s hs
      have hxvid : (blocksAt blocks bj).ids s ≠ (blocksAt blocks bi).ids idx := by
        intro heq
        exact hbeq (hS.idsInj hbj hbi hs hidx heq).1
      rw [updFn_other _ _ _ _ (validKeyNe hxv.1 hvid.1 hxvid)]
      exact hS.slotLookup bj hbj s hs
  · intro j hj i hidx2
    by_cases hjv : j = (blocksAt blocks bi).ids idx - 1
    · subst hjv
      rw [updFn_same] at hidx2
      cases hidx2
    · rw [updFn_other _ _ _ _ hjv] at hidx2 ⊢
      obtain ⟨h1i, hbj, hlt, hidsj⟩ := hS.entrySound j hj i hidx2
      by_cases hbeq : (lookup j).blockIndex = bi
      · rw [hbeq] at hlt hidsj ⊢
        have hiv : i - 1 ≠ idx := by
          intro heq
          rw [heq] at hidsj
          omega
        refine ⟨h1i, by simpa [List.length_set] using hbi, ?_, ?_⟩
        · rw [blocksAt_set_same _ _ _ hbi, hcount]
          omega
        · rw [blocksAt_set_same _ _ _ hbi, hids]
          exact hidsj
      · refine ⟨h1i, by simpa [List.length_set] using hbj, ?_, ?_⟩
        · rw [blocksAt_set_other _ _ _ _ hbeq]
          exact hlt
        · rw [blocksAt_set_other _ _ _ _ hbeq]
          exact hidsj

/-- Appending a fresh identifier at the end of a block preserves the storage
invariant, provided the identifier currently has no entry. -/
theorem storeInv_append
    {blocks : List DataBlock} {lookup : Nat → LookupEntry} (hS : StoreInv blocks lookup)
    {bi : Nat} (hbi : bi < blocks.length) {gid : Nat} {b3 : DataBlock}
    (hgid : ValidId gid) (hfresh : (lookup (gid - 1)).index = none)
    (hroom : (blocksAt blocks bi).elementsCount < (blocksAt blocks bi).maxElements)
    (hids : b3.ids = updFn (blocksAt blocks bi).ids (blocksAt blocks bi).elementsCount gid)
    (hcount : b3.elementsCount = (blocksAt blocks bi).elementsCount + 1)
    (hmax : b3.maxElements = (blocksAt blocks bi).maxElements) :
    StoreInv (blocks.set bi b3)
      (updFn lookup (gid - 1) (LookupEntry.make bi (blocksAt blocks bi).elementsCount)) := by
  have hno : ∀ bj, bj < blocks.length → ∀ s, s < (blocksAt blocks bj).elementsCount →
      (blocksAt blocks bj).ids s ≠ gid := by
    intro bj hbj s hs heq
    have hlk := hS.slotLookup bj hbj s hs
    rw [heq] at hlk
    rw [hlk] at hfresh
    simp [LookupEntry.make] at hfresh
  constructor
  · intro bj hbj
    rw [List.length_set] at hbj
    by_cases hbeq : bj = bi
    · subst hbeq
      rw [blocksAt_set_same _ _ _ hbj, hcount, hmax]
      omega
    · rw [blocksAt_set_other _ _ _ _ hbeq]
      exact hS.countLe bj hbj
  · intro bj hbj s hs
    rw [List.length_set] at hbj
    by_cases hbeq : bj = bi
    · subst hbeq
      rw [blocksAt_set_same _ _ _ hbj] at hs ⊢
      rw [hcount] at hs
      rw [hids]
      by_cases hse : s = (blocksAt blocks bj).elementsCount
      · subst hse
        rw [updFn_same]
        exact hgid
      · rw [updFn_other _ _ _ _ hse]
        exact hS.slotValid bj hbj s (by omega)
    · rw [blocksAt_set_other _ _ _ _ hbeq] at hs ⊢
      exact hS.slotValid bj hbj s hs
  · intro bj hbj s hs
    rw [List.length_set] at hbj
    by_cases hbeq : bj = bi
    · subst hbeq
      rw [blocksAt_set_same _ _ _ hbj] at hs ⊢
      rw [hcount] at hs
      rw [hids]
      by_cases hse : s = (blocksAt blocks bj).elementsCount
      · subst hse
        rw [updFn_same, updFn_same]
      · rw [updFn_other _ _ _ _ hse]
        have hxv : ValidId ((blocksAt blocks bj).ids s) := hS.slotValid bj hbj s (by omega)
        have hxg : (blocksAt blocks bj).ids s ≠ gid := hno bj hbj s (by omega)
        rw [updFn_other _ _ _ _ (validKeyNe hxv.1 hgid.1 hxg)]
        exact hS.slotLookup bj hbj s (by omega)
    · rw [blocksAt_set_other _ _ _ _ hbeq] at hs ⊢
      have hxv : ValidId ((blocksAt blocks bj).ids s) := hS.slotValid bj hbj s hs
      have hxg : (blocksAt blocks bj).ids s ≠ gid := hno bj hbj s hs
      rw [updFn_other _ _ _ _ (validKeyNe hxv.1 hgid.1 hxg)]
      exact hS.slotLookup bj hbj s hs
  · intro j hj i hidx2
    by_cases hjg : j = gid - 1
    · subst hjg
      rw [updFn_same] at hidx2 ⊢
      simp only [LookupEntry.make, Option.some.injEq] at hidx2
      subst hidx2
      simp only [LookupEntry.make]
      refine ⟨by omega, by simpa [List.length_set] using hbi, ?_, ?_⟩
      · rw [blocksAt_set_same _ _ _ hbi, hcount]
        omega
      · rw [blocksAt_set_same _ _ _ hbi, hids]
        simp only [Nat.add_sub_cancel, updFn_same]
        have := hgid.1
        omega
    · rw [updFn_other _ _ _ _ hjg] at hidx2 ⊢
      obtain ⟨h1i, hbj, hlt, hidsj⟩ := hS.entrySound j hj i hidx2
      by_cases hbeq : (lookup j).blockIndex = bi
      · rw [hbeq] at hlt hidsj ⊢
        refine ⟨h1i, by simpa [List.length_set] using hbi, ?_, ?_⟩
        · rw [blocksAt_set_same _ _ _ hbi, hcount]
          omega
        · rw [blocksAt_set_same _ _ _ hbi, hids, updFn_other _ _ _ _ (by omega)]
          exact hidsj
      · refine ⟨h1i, by simpa [List.length_set] using hbj, ?_, ?_⟩
        · rw [blocksAt_set_other _ _ _ _ hbeq]
          exact hlt
        · rw [blocksAt_set_other _ _ _ _ hbeq]
          exact hidsj

/-- Cross-block relocation preserves the storage invariant (relocating case).
The final state is the source-side swap-removal composed with the
destination-side append of the moved identifier. -/
theorem storeInv_move_relocate
    {blocks : List DataBlock} {lookup : Nat → LookupEntry} (hS : StoreInv blocks lookup)
    {src dest srcIdx : Nat} (hsrc : src < blocks.length) (hdest : dest < blocks.length)
    (hne : src ≠ dest)
    (hrel : srcIdx < (blocksAt blocks src).elementsCount - 1)
    (hroom : (blocksAt blocks dest).elementsCount < (blocksAt blocks dest).maxElements)
    {sb4 db3 : DataBlock}
    (hsids : sb4.ids = updFn (blocksAt blocks src).ids srcIdx
      ((blocksAt blocks src).ids ((blocksAt blocks src).elementsCount - 1)))
    (hscount : sb4.elementsCount = (blocksAt blocks src).elementsCount - 1)
    (hsmax : sb4.maxElements = (blocksAt blocks src).maxElements)
    (hdids : db3.ids = updFn (blocksAt blocks dest).ids (blocksAt blocks dest).elementsCount
      ((blocksAt blocks src).ids srcIdx))
    (hdcount : db3.elementsCount = (blocksAt blocks dest).elementsCount + 1)
    (hdmax : db3.maxElements = (blocksAt blocks dest).maxElements) :
    StoreInv ((blocks.set src sb4).set dest db3)
      (updFn (updFn lookup
          ((blocksAt blocks src).ids ((blocksAt blocks src).elementsCount - 1) - 1)
          (LookupEntry.make src srcIdx))
        ((blocksAt blocks src).ids srcIdx - 1)
        (LookupEntry.make dest (blocksAt blocks dest).elementsCount)) := by
  have hvid : ValidId ((blocksAt blocks src).ids srcIdx) :=
    hS.slotValid src hsrc srcIdx (by omega)
  have hrid : ValidId ((blocksAt blocks src).ids ((blocksAt blocks src).elementsCount - 1)) :=
    hS.slotValid src hsrc _ (by omega)
  have hvr : (blocksAt blocks src).ids srcIdx ≠
      (blocksAt blocks src).ids ((blocksAt blocks src).elementsCount - 1) := by
    intro heq
    have := (hS.idsInj hsrc hsrc (by omega) (by omega) heq).2
    omega
  have hmid := storeInv_swapRemove_relocate hS hsrc hrel hsids hscount hsmax
  have hdl : dest < (blocks.set src sb4).length := by simpa using hdest
  have hbd : blocksAt (blocks.set src sb4) dest = blocksAt blocks dest :=
    blocksAt_set_other _ _ _ _ (fun h => hne h.symm)
  have hfresh : ((updFn (updFn lookup ((blocksAt blocks src).ids srcIdx - 1) LookupEntry.empty)
      ((blocksAt blocks src).ids ((blocksAt blocks src).elementsCount - 1) - 1)
      (LookupEntry.make src srcIdx)) ((blocksAt blocks src).ids srcIdx - 1)).index = none := by
    rw [updFn_other _ _ _ _ (validKeyNe hvid.1 hrid.1 hvr), updFn_same]
    rfl
  have happ := storeInv_append hmid hdl hvid hfresh (by rw [hbd]; exact hroom)
    (by rw [hbd]; exact hdids) (by rw [hbd]; exact hdcount) (by rw [hbd]; exact hdmax)
  rw [hbd] at happ
  have hlkeq : (updFn (updFn (updFn lookup ((blocksAt blocks src).ids srcIdx - 1)
      LookupEntry.empty)
      ((blocksAt blocks src).ids ((blocksAt blocks src).elementsCount - 1) - 1)
      (LookupEntry.make src srcIdx)) ((blocksAt blocks src).ids srcIdx - 1)
      (LookupEntry.make dest (blocksAt blocks dest).elementsCount)) =
      (updFn (updFn lookup
        ((blocksAt blocks src).ids ((blocksAt blocks src).elementsCount - 1) - 1)
        (LookupEntry.make src srcIdx))
      ((blocksAt blocks src).ids srcIdx - 1)
      (LookupEntry.make dest (blocksAt blocks dest).elementsCount)) := by
    funext j
    by_cases hj1 : j = (blocksAt blocks src).ids srcIdx - 1
    · subst hj1
      rw [updFn_same, updFn_same]
    · rw [updFn_other _ _ _ _ hj1, updFn_other _ _ _ _ hj1]
      by_cases hj2 : j = (blocksAt blocks src).ids
          ((blocksAt blocks src).elementsCount - 1) - 1
      · subst hj2
        rw [updFn_same, updFn_same]
      · rw [updFn_other _ _ _ _ hj2, updFn_other _ _ _ _ hj2, updFn_other _ _ _ _ hj1]
  rw [hlkeq] at happ
  exact happ

/-- Cross-block relocation preserves the storage invariant (last-slot case:
the moved entity sat in the last occupied source slot). -/
theorem storeInv_move_last
    {blocks : List DataBlock} {lookup : Nat → LookupEntry} (hS : StoreInv blocks lookup)
    {src dest srcIdx : Nat} (hsrc : src < blocks.length) (hdest : dest < blocks.length)
    (hne : src ≠ dest)
    (hidx : srcIdx < (blocksAt blocks src).elementsCount)
    (hlast : ¬ srcIdx < (blocksAt blocks src).elementsCount - 1)
    (hroom : (blocksAt blocks dest).elementsCount < (blocksAt blocks dest).maxElements)
    {sb4 db3 : DataBlock}
    (hsids : sb4.ids = (blocksAt blocks src).ids)
    (hscount : sb4.elementsCount = (blocksAt blocks src).elementsCount - 1)
    (hsmax : sb4.maxElements = (blocksAt blocks src).maxElements)
    (hdids : db3.ids = updFn (blocksAt blocks dest).ids (blocksAt blocks dest).elementsCount
      ((blocksAt blocks src).ids srcIdx))
    (hdcount : db3.elementsCount = (blocksAt blocks dest).elementsCount + 1)
    (hdmax : db3.maxElements = (blocksAt blocks dest).maxElements) :
    StoreInv ((blocks.set src sb4).set dest db3)
      (updFn lookup ((blocksAt blocks src).ids srcIdx - 1)
        (LookupEntry.make dest (blocksAt blocks dest).elementsCount)) := by
  have hvid : ValidId ((blocksAt blocks src).ids srcIdx) := hS.slotValid src hsrc srcIdx hidx
  have hmid := storeInv_swapRemove_last hS hsrc hidx hlast hsids hscount hsmax
  have hdl : dest < (blocks.set src sb4).length := by simpa using hdest
  have hbd : blocksAt (blocks.set src sb4) dest = blocksAt blocks dest :=
    blocksAt_set_other _ _ _ _ (fun h => hne h.symm)
  have hfresh : ((updFn lookup ((blocksAt blocks src).ids srcIdx - 1) LookupEntry.empty)
      ((blocksAt blocks src).ids srcIdx - 1)).index = none := by
    rw [updFn_same]
    rfl
  have happ := storeInv_append hmid hdl hvid hfresh (by rw [hbd]; exact hroom)
    (by rw [hbd]; exact hdids) (by rw [hbd]; exact hdcount) (by rw [hbd]; exact hdmax)
  rw [hbd] at happ
  have hlkeq : (updFn (updFn lookup ((blocksAt blocks src).ids srcIdx - 1) LookupEntry.empty)
      ((blocksAt blocks src).ids srcIdx - 1)
      (LookupEntry.make dest (blocksAt blocks dest).elementsCount)) =
      (updFn lookup ((blocksAt blocks src).ids srcIdx - 1)
        (LookupEntry.make dest (blocksAt blocks dest).elementsCount)) := by
    funext j
    by_cases hj1 : j = (blocksAt blocks src).ids srcIdx - 1
    · subst hj1
      rw [updFn_same, updFn_same]
    · rw [updFn_other _ _ _ _ hj1, updFn_other _ _ _ _ hj1, updFn_other _ _ _ _ hj1]
  rw [hlkeq] at happ
  exact happ

theorem blocksAt_append_self (l : List DataBlock) (b : DataBlock) :
    blocksAt (l ++ [b]) l.length = b := by
  unfold blocksAt
  rw [List.getD_eq_getElem?_getD, List.getElem?_append_right (Nat.le_refl _)]
  simp

theorem rfbStep_fields (index : Nat) (b : DataBlock) (i : Nat) :
    (rfbStep index b i).ids = b.ids ∧ (rfbStep index b i).elementsCount = b.elementsCount ∧
    (rfbStep index b i).maxElements = b.maxElements := by
  unfold rfbStep
  split
  · split <;> exact ⟨rfl, rfl, rfl⟩
  · exact ⟨rfl, rfl, rfl⟩

theorem foldl_rfbStep_fields (index : Nat) (L : List Nat) (b : DataBlock) :
    (L.foldl (rfbStep index) b).ids = b.ids ∧
    (L.foldl (rfbStep index) b).elementsCount = b.elementsCount ∧
    (L.foldl (rfbStep index) b).maxElements = b.maxElements := by
  induction L generalizing b with
  | nil => exact ⟨rfl, rfl, rfl⟩
  | cons a L ih =>
    simp only [List.foldl_cons]
    obtain ⟨h1, h2, h3⟩ := ih (rfbStep index b a)
    obtain ⟨g1, g2, g3⟩ := rfbStep_fields index b a
    exact ⟨h1.trans g1, h2.trans g2, h3.trans g3⟩

theorem copyStep_fields {srcMask srcIndex destIndex : Nat} {p p2 : DataBlock × DataBlock}
    {i : Nat} (h : copyStep srcMask srcIndex destIndex p i = .ok p2) :
    p2.1.ids = p.1.ids ∧ p2.1.elementsCount = p.1.elementsCount ∧
    p2.1.maxElements = p.1.maxElements ∧ p2.2.ids = p.2.ids ∧
    p2.2.elementsCount = p.2.elementsCount ∧ p2.2.maxElements = p.2.maxElements := by
  unfold copyStep at h
  split at h
  · split at h
    next => 
      injection h with h
      subst h
      split <;> exact ⟨rfl, rfl, rfl, rfl, rfl, rfl⟩
    next => exact Except.noConfusion h
  · injection h with h
    subst h
    exact ⟨rfl, rfl, rfl, rfl, rfl, rfl⟩

theorem foldlM_copyStep_fields {srcMask srcIndex destIndex : Nat} (L : List Nat)
    (p p2 : DataBlock × DataBlock)
    (h : List.foldlM (copyStep srcMask srcIndex destIndex) p L = .ok p2) :
    p2.1.ids = p.1.ids ∧ p2.1.elementsCount = p.1.elementsCount ∧
    p2.1.maxElements = p.1.maxElements ∧ p2.2.ids = p.2.ids ∧
    p2.2.elementsCount = p.2.elementsCount ∧ p2.2.maxElements = p.2.maxElements := by
  induction L generalizing p with
  | nil =>
    simp only [List.foldlM_nil] at h
    injection h with h
    subst h
    exact ⟨rfl, rfl, rfl, rfl, rfl, rfl⟩
  | cons a L ih =>
    rw [List.foldlM_cons] at h
    cases hstep : copyStep srcMask srcIndex destIndex p a with
    | error e =>
      rw [hstep] at h
      simp only [Bind.bind, Except.bind] at h
      exact Except.noConfusion h
    | ok p1 =>
      rw [hstep] at h
      simp only [Bind.bind, Except.bind] at h
      obtain ⟨g1, g2, g3, g4, g5, g6⟩ := copyStep_fields hstep
      obtain ⟨h1, h2, h3, h4, h5, h6⟩ := ih p1 h
      exact ⟨h1.trans g1, h2.trans g2, h3.trans g3, h4.trans g4, h5.trans g5, h6.trans g6⟩

theorem copyColumns_fields {typesLen srcMask srcIndex destIndex : Nat}
    {sb db sb2 db2 : DataBlock}
    (h : copyColumns typesLen srcMask srcIndex destIndex sb db = .ok (sb2, db2)) :
    sb2.ids = sb.ids ∧ sb2.elementsCount = sb.elementsCount ∧
    sb2.maxElements = sb.maxElements ∧ db2.ids = db.ids ∧
    db2.elementsCount = db.elementsCount ∧ db2.maxElements = db.maxElements := by
  exact foldlM_copyStep_fields _ _ _ h

theorem DataBlock.new_ok {mask : Nat} {sizes : List Nat} {b : DataBlock}
    (h : DataBlock.new mask sizes = .ok b) :
    b.elementsCount = 0 ∧ b.maxElements = BLOCK_SIZE / (totalSizeOf mask sizes + gearIdSize) ∧
    b.ids = (fun _ => 0) ∧
    b.columns = (fun i =>
      if i < sizes.length && mask &&& (1 <<< i) != 0 then some (fun _ => (none : Cell))
      else none) ∧
    totalSizeOf mask sizes < 65536 := by
  simp only [DataBlock.new] at h
  split at h
  next hc =>
    injection h with h
    subst h
    exact ⟨rfl, rfl, rfl, rfl, hc⟩
  next => exact Except.noConfusion h

/-- Pushing a fresh (empty) block preserves the storage invariant. -/
theorem storeInv_push {blocks : List DataBlock} {lookup : Nat → LookupEntry}
    (hS : StoreInv blocks lookup) {b0 : DataBlock} (h0 : b0.elementsCount = 0) :
    StoreInv (blocks ++ [b0]) lookup := by
  constructor
  · intro bi hbi
    rw [List.length_append] at hbi
    by_cases hlt : bi < blocks.length
    · rw [blocksAt_append_left _ _ _ hlt]
      exact hS.countLe bi hlt
    · have hbe : bi = blocks.length := by simp at hbi; omega
      subst hbe
      rw [blocksAt_append_self, h0]
      exact Nat.zero_le _
  · intro bi hbi s hs
    rw [List.length_append] at hbi
    by_cases hlt : bi < blocks.length
    · rw [blocksAt_append_left _ _ _ hlt] at hs ⊢
      exact hS.slotValid bi hlt s hs
    · have hbe : bi = blocks.length := by simp at hbi; omega
      subst hbe
      rw [blocksAt_append_self, h0] at hs
      omega
  · intro bi hbi s hs
    rw [List.length_append] at hbi
    by_cases hlt : bi < blocks.length
    · rw [blocksAt_append_left _ _ _ hlt] at hs ⊢
      exact hS.slotLookup bi hlt s hs
    · have hbe : bi = blocks.length := by simp at hbi; omega
      subst hbe
      rw [blocksAt_append_self, h0] at hs
      omega
  · intro j hj i hidx2
    obtain ⟨h1i, hbj, hlt, hidsj⟩ := hS.entrySound j hj i hidx2
    refine ⟨h1i, ?_, ?_, ?_⟩
    · rw [List.length_append]
      omega
    · rw [blocksAt_append_left _ _ _ hbj]
      exact hlt
    · rw [blocksAt_append_left _ _ _ hbj]
      exact hidsj

/-- `ensure_block` preserves the invariant and does not touch the lookup
table, the type list, the element sizes, or any existing block. -/
theorem ensureBlock_ok {m m1 : GearDataManager} {mask : Nat} {di : Nat}
    (hInv : ManagerInv m) (h : m.ensureBlock mask = .ok (m1, di)) :
    ManagerInv m1 ∧ m1.lookup = m.lookup ∧ m1.types = m.types ∧
    m1.elementSizes = m.elementSizes ∧ m.blocks.length ≤ m1.blocks.length ∧
    (∀ bj, bj < m.blocks.length → blocksAt m1.blocks bj = blocksAt m.blocks bj) ∧
    (∀ j, j < m.blockMasks.length → m1.blockMasks[j]? = m.blockMasks[j]?) := by
  obtain ⟨hlen, hS⟩ := hInv
  unfold GearDataManager.ensureBlock at h
  split at h
  · injection h with h
    have h1 := congrArg Prod.fst h
    simp at h1
    subst h1
    exact ⟨⟨hlen, hS⟩, rfl, rfl, rfl, Nat.le_refl _, fun bj _ => rfl, fun j _ => rfl⟩
  · split at h
    next => exact Except.noConfusion h
    next b hnew =>
      injection h with h
      have h1 := congrArg Prod.fst h
      simp at h1
      subst h1
      obtain ⟨hc0, _, _, _, _⟩ := DataBlock.new_ok hnew
      refine ⟨⟨by simp [hlen], storeInv_push hS hc0⟩, rfl, rfl, rfl, by simp, ?_, ?_⟩
      · intro bj hbj
        exact blocksAt_append_left _ _ _ hbj
      · intro j hj
        rw [List.getElem?_append, if_pos hj]

/-- `add_to_block` preserves the invariant when the identifier is fresh. -/
theorem addToBlock_inv {m m2 : GearDataManager} {gearId blockIndex value : Nat}
    (hInv : ManagerInv m) (hfresh : (m.lookup (gearId - 1)).index = none)
    (h : m.addToBlock gearId blockIndex value = .ok m2) : ManagerInv m2 := by
  obtain ⟨hlen, hS⟩ := hInv
  simp only [GearDataManager.addToBlock] at h
  split at h
  · exact Except.noConfusion h
  next mask hmask =>
    split at h
    next hones =>
      split at h
      · exact Except.noConfusion h
      next block hblock =>
        have hbi : blockIndex < m.blocks.length := lt_length_of_getElem? hblock
        have hba : blocksAt m.blocks blockIndex = block := blocksAt_getElem? hblock
        split at h
        next hroom =>
          split at h
          · exact Except.noConfusion h
          next col hcol =>
            split at h
            · exact Except.noConfusion h
            next lookup1 hw1 =>
              obtain ⟨hg1, hk1, he1⟩ := writeLookupF_eq_some hw1
              subst he1
              injection h with h
              subst h
              constructor
              · simp [hlen]
              · rw [← hba]
                refine storeInv_append hS hbi ⟨hg1, by omega⟩ hfresh
                  (by rw [hba]; exact hroom) ?_ ?_ ?_
                · rfl
                · rfl
                · rfl
        · exact Except.noConfusion h
    · exact Except.noConfusion h

set_option maxRecDepth 8000 in
/-- The swap-removal tail preserves the invariant, for any `block1` agreeing
with the stored block on identifiers, occupancy and capacity (the copy loop
only alters columns). -/
theorem removeFromBlockTail_inv {m m2 : GearDataManager} {bi idx : Nat} {block1 : DataBlock}
    (hInv : ManagerInv m) (hbi : bi < m.blocks.length)
    (hf1 : block1.ids = (blocksAt m.blocks bi).ids)
    (hf2 : block1.elementsCount = (blocksAt m.blocks bi).elementsCount)
    (hf3 : block1.maxElements = (blocksAt m.blocks bi).maxElements)
    (hidx : idx < (blocksAt m.blocks bi).elementsCount)
    (h : removeFromBlockTail m bi idx block1 = .ok m2) : ManagerInv m2 := by
  obtain ⟨hlen, hS⟩ := hInv
  simp only [removeFromBlockTail] at h
  split at h
  next hmax1 =>
    split at h
    · exact Except.noConfusion h
    next lookup1 hw1 =>
      obtain ⟨hg1, hk1, he1⟩ := writeLookupF_eq_some hw1
      subst he1
      split at h
      next hrel =>
        rw [hf2] at hrel
        split at h
        next hmaxr =>
          split at h
          · exact Except.noConfusion h
          next lookup2 hw2 =>
            obtain ⟨hg2, hk2, he2⟩ := writeLookupF_eq_some hw2
            subst he2
            injection h with h
            subst h
            constructor
            · simp [hlen]
            · rw [hf1, hf2, hf3]
              rw [updFn_other _ _ _ _
                (by omega : (blocksAt m.blocks bi).elementsCount - 1 ≠ idx)]
              refine storeInv_swapRemove_relocate hS hbi ?_ ?_ ?_ ?_
              · exact hrel
              · rfl
              · rfl
              · rfl
        · exact Except.noConfusion h
      next hnrel =>
        rw [hf2] at hnrel
        injection h with h
        subst h
        constructor
        · simp [hlen]
        · rw [hf1, hf2, hf3]
          refine storeInv_swapRemove_last hS hbi ?_ ?_ ?_ ?_ ?_
          · exact hidx
          · exact hnrel
          · rfl
          · rfl
          · rfl
  · exact Except.noConfusion h

/-- `remove_from_block` preserves the invariant. -/
theorem removeFromBlock_inv {m m2 : GearDataManager} {bi idx : Nat}
    (hInv : ManagerInv m) (h : m.removeFromBlock bi idx = .ok m2) : ManagerInv m2 := by
  unfold GearDataManager.removeFromBlock at h
  split at h
  · exact Except.noConfusion h
  next block hblock =>
    have hbi : bi < m.blocks.length := lt_length_of_getElem? hblock
    have hba : blocksAt m.blocks bi = block := blocksAt_getElem? hblock
    split at h
    next hidx =>
      obtain ⟨hf1, hf2, hf3⟩ := foldl_rfbStep_fields idx (List.range 64) block
      exact removeFromBlockTail_inv hInv hbi (by rw [hba]; exact hf1)
        (by rw [hba]; exact hf2) (by rw [hba]; exact hf3) (by rw [hba]; exact hidx) h
    · exact Except.noConfusion h

set_option maxRecDepth 8000 in
/-- `move_between_blocks` preserves the invariant. -/
theorem moveBetweenBlocks_inv {m m2 : GearDataManager} {src srcIdx dest : Nat}
    (hInv : ManagerInv m) (h : m.moveBetweenBlocks src srcIdx dest = .ok m2) :
    ManagerInv m2 := by
  obtain ⟨hlen, hS⟩ := hInv
  simp only [GearDataManager.moveBetweenBlocks] at h
  split at h
  next hne0 =>
    have hne : src ≠ dest := by simpa using hne0
    split at h
    next srcMask destMask hm1 hm2 =>
      split at h
      next hsup =>
        split at h
        next srcBlock destBlock hb1 hb2 =>
          have hsrcl : src < m.blocks.length := lt_length_of_getElem? hb1
          have hdestl : dest < m.blocks.length := lt_length_of_getElem? hb2
          have hbas : blocksAt m.blocks src = srcBlock := blocksAt_getElem? hb1
          have hbad : blocksAt m.blocks dest = destBlock := blocksAt_getElem? hb2
          split at h
          next hidx =>
            split at h
            next hfull =>
              have hroom : destBlock.elementsCount < destBlock.maxElements := by
                have hne2 : destBlock.elementsCount ≠ destBlock.maxElements := by
                  simpa [DataBlock.isFull] using hfull
                have hle := hS.countLe dest hdestl
                rw [hbad] at hle
                omega
              split at h
              · exact Except.noConfusion h
              next sb2 db2 hcc =>
                obtain ⟨s1, s2, s3, d1, d2, d3⟩ := copyColumns_fields hcc
                split at h
                next hms =>
                  split at h
                  · exact Except.noConfusion h
                  next sb3 lookup1 heqstep =>
                    split at h
                    next hdm =>
                      split at h
                      · exact Except.noConfusion h
                      next lookup2 hw2 =>
                        obtain ⟨hg2, hk2, he2⟩ := writeLookupF_eq_some hw2
                        subst he2
                        injection h with h
                        subst h
                        split at heqstep
                        next hrel =>
                          split at heqstep
                          next hmaxr =>
                            split at heqstep
                            · exact Except.noConfusion heqstep
                            next lookup1x hw1 =>
                              obtain ⟨hg1, hk1, he1⟩ := writeLookupF_eq_some hw1
                              subst he1
                              injection heqstep with hpair
                              injection hpair with hsb3 hlk1
                              subst hsb3
                              subst hlk1
                              constructor
                              · simp [hlen]
                              · rw [s1, s2, s3, d1, d2, d3]
                                rw [← hbas, ← hbad]
                                refine storeInv_move_relocate hS hsrcl hdestl hne ?_ ?_ ?_ ?_ ?_ ?_ ?_ ?_
                                · rw [hbas]
                                  omega
                                · rw [hbad]
                                  exact hroom
                                · rfl
                                · rfl
                                · rfl
                                · rfl
                                · rfl
                                · rfl
                          · exact Except.noConfusion heqstep
                        next hnrel =>
                          injection heqstep with hpair
                          injection hpair with hsb3 hlk1
                          subst hsb3
                          subst hlk1
                          constructor
                          · simp [hlen]
                          · rw [s1, s2, s3, d1, d2, d3]
                            rw [← hbas, ← hbad]
                            refine storeInv_move_last hS hsrcl hdestl hne ?_ ?_ ?_ ?_ ?_ ?_ ?_ ?_ ?_
                            · rw [hbas]
                              omega
                            · rw [hbas]
                              rw [s2] at hnrel
                              exact hnrel
                            · rw [hbad]
                              exact hroom
                            · rfl
                            · rfl
                            · rfl
                            · rfl
                            · rfl
                            · rfl
                    · exact Except.noConfusion h
                · exact Except.noConfusion h
            · exact Except.noConfusion h
          · exact Except.noConfusion h
        next => exact Except.noConfusion h
      · exact Except.noConfusion h
    next => exact Except.noConfusion h
  · exact Except.noConfusion h

/-- `register` preserves the invariant (it only touches the type registry). -/
theorem register_inv {m m2 : GearDataManager} {t : RType}
    (hInv : ManagerInv m) (h : m.register t = .ok m2) : ManagerInv m2 := by
  obtain ⟨hlen, hS⟩ := hInv
  simp only [GearDataManager.register] at h
  split at h
  · exact Except.noConfusion h
  split at h
  · exact Except.noConfusion h
  split at h
  · exact Except.noConfusion h
  split at h
  · injection h with h
    subst h
    exact ⟨hlen, hS⟩
  split at h
  · injection h with h
    subst h
    exact ⟨hlen, hS⟩
  · exact Except.noConfusion h

/-- `remove_all` preserves the invariant. -/
theorem removeAll_inv {m m2 : GearDataManager} {gearId : Nat}
    (hInv : ManagerInv m) (h : m.removeAll gearId = .ok m2) : ManagerInv m2 := by
  simp only [GearDataManager.removeAll] at h
  split at h
  · exact Except.noConfusion h
  next entry hrd =>
    split at h
    next index hie => exact removeFromBlock_inv hInv h
    next =>
      injection h with h
      subst h
      exact hInv

/-- `add` (attach) preserves the invariant. -/
theorem add_inv {m m2 : GearDataManager} {t : RType} {gearId value : Nat}
    (hInv : ManagerInv m) (h : m.add t gearId value = .ok m2) : ManagerInv m2 := by
  simp only [GearDataManager.add] at h
  split at h
  next typeIndex hti =>
    split at h
    · exact Except.noConfusion h
    next entry hrd =>
      obtain ⟨hg, hk, hent⟩ := readLookupF_eq_some hrd
      split at h
      next index hie =>
        split at h
        · exact Except.noConfusion h
        next mask hmask =>
          split at h
          next hneq =>
            split at h
            · exact Except.noConfusion h
            next m1 di hens =>
              obtain ⟨hInv1, hlk1, _, _, _, _, _⟩ := ensureBlock_ok hInv hens
              exact moveBetweenBlocks_inv hInv1 h
          next =>
            injection h with h
            subst h
            exact hInv
      next hie =>
        split at h
        · exact Except.noConfusion h
        next m1 di hens =>
          obtain ⟨hInv1, hlk1, _, _, _, _, _⟩ := ensureBlock_ok hInv hens
          refine addToBlock_inv hInv1 ?_ h
          rw [hlk1]
          rw [hent] at hie
          exact hie
  · exact Except.noConfusion h

/-- `remove` (detach) preserves the invariant. -/
theorem remove_inv {m m2 : GearDataManager} {t : RType} {gearId : Nat}
    (hInv : ManagerInv m) (h : m.remove t gearId = .ok m2) : ManagerInv m2 := by
  simp only [GearDataManager.remove] at h
  split at h
  next typeIndex hti =>
    split at h
    · exact Except.noConfusion h
    next entry hrd =>
      split at h
      next index hie =>
        split at h
        · exact Except.noConfusion h
        next mask hmask =>
          split at h
          next hz => exact removeAll_inv hInv h
          next =>
            split at h
            · exact Except.noConfusion h
            next m1 di hens =>
              obtain ⟨hInv1, _, _, _, _, _, _⟩ := ensureBlock_ok hInv hens
              exact moveBetweenBlocks_inv hInv1 h
      next =>
        injection h with h
        subst h
        exact hInv
  · exact Except.noConfusion h

/-- The freshly constructed manager satisfies the invariant. -/
theorem managerInv_new : ManagerInv GearDataManager.new := by
  refine ⟨rfl, ?_, ?_, ?_, ?_⟩
  · intro bi hbi
    simp [GearDataManager.new] at hbi
  · intro bi hbi
    simp [GearDataManager.new] at hbi
  · intro bi hbi
    simp [GearDataManager.new] at hbi
  · intro j hj i hidx
    exact Option.noConfusion hidx

/-- Any single public operation preserves the invariant. -/
theorem runOp_inv {m m2 : GearDataManager} {op : Op} (hInv : ManagerInv m)
    (h : runOp m op = .ok m2) : ManagerInv m2 := by
  cases op with
  | register t => exact register_inv hInv h
  | add t g v => exact add_inv hInv h
  | remove t g => exact remove_inv hInv h
  | removeAll g => exact removeAll_inv hInv h

/-- Any successful sequence of public operations preserves the invariant. -/
theorem runOps_inv {ops : List Op} {m m2 : GearDataManager} (hInv : ManagerInv m)
    (h : runOps m ops = .ok m2) : ManagerInv m2 := by
  induction ops generalizing m with
  | nil =>
    simp only [runOps] at h
    injection h with h
    subst h
    exact hInv
  | cons op rest ih =>
    simp only [runOps] at h
    split at h
    · exact Except.noConfusion h
    next m1 h1 => exact ih (runOp_inv hInv h1) h

/-! ### Claim theorems -/

/-- C1 (code bug): the fresh-entry attach path is claimed to copy the value
into the column of the attached type for every registered type, but the
source writes through `component_blocks[0]` — the column of type index 0.
For any type other than the first-registered one the block mask is a single
non-zero bit, `component_blocks[0]` is `None`, and the unwrap panics.
Failing input: two registered types, fresh attach of the second one. -/
theorem c1_fresh_attach_second_type_fails :
    runOps GearDataManager.new
      [.register typeA, .register typeB, .add typeB 1 7] = .error .unwrapFailed := rfl

/-- C2 (code bug): detach invokes the cross-block relocation helper in ways
that violate its own `debug_assert!` preconditions.  Concretely, detaching a
type whose bit is absent from the entity mask resolves the destination to
the entity's own block, violating the asserted
`src_block_index != dest_block_index`.  (Detaching a present bit violates
the other assert, `src_mask & dest_mask == src_mask`, since the destination
mask lacks the detached bit.) -/
theorem c2_detach_breaks_relocation_precondition :
    runOps GearDataManager.new
      [.register typeA, .register typeB, .add typeA 1 5, .remove typeB 1] =
      .error (.assertViolation "src_block_index != dest_block_index") := rfl

/-- C3, counterexample: a single registered type of size 65535 (legal: one
type ≤ 64, size ≤ 65535) yields a block with `max_elements = 0`, refuting
the claim that `max_elements ≥ 1` for every legal registered-type
combination. -/
theorem c3_max_elements_counterexample :
    (DataBlock.new (1 <<< 0) [65535]).map DataBlock.maxElements = Except.ok 0 := rfl

/-- C3, amended: every successfully created block has
`max_elements = ⌊32768 / (Σ sizes of masked types + id size)⌋`, and
`max_elements ≥ 1` exactly when the per-entity footprint fits the block
budget — not for every legal registered-type combination. -/
theorem c3_max_elements_amended (mask : Nat) (sizes : List Nat) (b : DataBlock)
    (h : DataBlock.new mask sizes = .ok b) :
    b.maxElements = BLOCK_SIZE / (totalSizeOf mask sizes + gearIdSize) ∧
    (totalSizeOf mask sizes + gearIdSize ≤ BLOCK_SIZE → 1 ≤ b.maxElements) := by
  obtain ⟨_, hmax, _, _, _⟩ := DataBlock.new_ok h
  refine ⟨hmax, fun hle => ?_⟩
  rw [hmax]
  exact (Nat.one_le_div_iff (by unfold gearIdSize; omega)).mpr hle

theorem c3_max_elements_amended_witness :
    ∃ b, DataBlock.new (1 <<< 0) [4] = Except.ok b ∧ 1 ≤ b.maxElements :=
  ⟨_, rfl, (c3_max_elements_amended (1 <<< 0) [4] _ rfl).2 (by decide)⟩

/-- C4: after any successful sequence of public operations on a fresh store,
every block's occupancy fits its capacity, occupied slots are exactly the
dense prefix `[0, elements_count)`, and the Location Index is in bijection
with the occupied slots: each occupied slot's identifier maps back to exactly
that (block, slot), and every non-empty entry points at an occupied slot
storing its owning identifier. -/
theorem c4_dense_prefix_bijection (ops : List Op) (m : GearDataManager)
    (h : runOps GearDataManager.new ops = .ok m) : ManagerInv m :=
  runOps_inv managerInv_new h

theorem c4_dense_prefix_bijection_witness :
    ∃ m, runOps GearDataManager.new exampleOps = .ok m ∧ ManagerInv m :=
  ⟨_, rfl, c4_dense_prefix_bijection exampleOps _ rfl⟩

/-! ### Bitmask helper lemmas -/

theorem land_ne_zero_of_testBit {a b : Nat} (i : Nat) (ha : a.testBit i = true)
    (hb : b.testBit i = true) : a &&& b ≠ 0 := by
  intro h0
  have hx := Nat.testBit_land a b i
  rw [h0, Nat.zero_testBit, ha, hb] at hx
  cases hx

theorem land_ne_zero_elim {a b : Nat} (h : a &&& b ≠ 0) :
    ∃ i, a.testBit i = true ∧ b.testBit i = true := by
  obtain ⟨i, hi⟩ := Nat.ne_zero_implies_bit_true h
  rw [Nat.testBit_land] at hi
  exact ⟨i, (Bool.and_eq_true _ _).mp hi⟩

theorem testBit_of_land_pow_ne_zero {mask k : Nat} (h : mask &&& (1 <<< k) ≠ 0) :
    mask.testBit k = true := by
  obtain ⟨i, hm, hp⟩ := land_ne_zero_elim h
  rw [Nat.one_shiftLeft, Nat.testBit_two_pow] at hp
  have : k = i := by simpa using hp
  rw [this]
  exact hm

theorem land_pow_ne_zero_of_testBit {mask k : Nat} (h : mask.testBit k = true) :
    mask &&& (1 <<< k) ≠ 0 := by
  refine land_ne_zero_of_testBit k h ?_
  rw [Nat.one_shiftLeft]
  exact Nat.testBit_two_pow_self

theorem testBit_false_of_land_pow_eq_zero {mask k : Nat} (h : mask &&& (1 <<< k) = 0) :
    mask.testBit k = false := by
  by_contra hb
  exact land_pow_ne_zero_of_testBit (Bool.not_eq_false _ ▸ hb) h

theorem lor_eq_self_of_land_ne_zero {mask k : Nat} (h : mask &&& (1 <<< k) ≠ 0) :
    mask ||| (1 <<< k) = mask := by
  have ht := testBit_of_land_pow_ne_zero h
  apply Nat.eq_of_testBit_eq
  intro i
  rw [Nat.testBit_lor, Nat.one_shiftLeft, Nat.testBit_two_pow]
  by_cases hik : k = i
  · subst hik
    simp [ht]
  · simp [hik]

theorem lor_ne_self_of_land_eq_zero {mask k : Nat} (h : mask &&& (1 <<< k) = 0) :
    mask ||| (1 <<< k) ≠ mask := by
  intro heq
  have h1 : (mask ||| (1 <<< k)).testBit k = true := by
    rw [Nat.testBit_lor, Nat.one_shiftLeft, Nat.testBit_two_pow]
    simp
  rw [heq, testBit_false_of_land_pow_eq_zero h] at h1
  cases h1

theorem land_zero_of_lor_land_zero {a x b : Nat} (h : (a ||| x) &&& b = 0) : a &&& b = 0 := by
  by_contra hne
  obtain ⟨i, ha, hb⟩ := land_ne_zero_elim hne
  refine land_ne_zero_of_testBit i ?_ hb h
  rw [Nat.testBit_lor, ha]
  rfl

theorem land_ne_zero_lor_left {a x b : Nat} (h : a &&& b ≠ 0) : (a ||| x) &&& b ≠ 0 := by
  obtain ⟨i, ha, hb⟩ := land_ne_zero_elim h
  refine land_ne_zero_of_testBit i ?_ hb
  rw [Nat.testBit_lor, ha]
  rfl

theorem lor_pow_land_pow_ne_zero (x k : Nat) : (x ||| (1 <<< k)) &&& (1 <<< k) ≠ 0 := by
  refine land_ne_zero_of_testBit k ?_ ?_
  · rw [Nat.testBit_lor, Nat.one_shiftLeft, Nat.testBit_two_pow]
    simp
  · rw [Nat.one_shiftLeft]
    exact Nat.testBit_two_pow_self

/-! ### findIdx? helper lemmas -/

theorem findIdx?_beq_mem {a : Nat} : ∀ {l : List Nat} {i : Nat},
    l.findIdx? (· == a) = some i → a ∈ l := by
  intro l
  induction l with
  | nil =>
    intro i h
    simp [List.findIdx?_nil] at h
  | cons x xs ih =>
    intro i h
    rw [List.findIdx?_cons] at h
    split at h
    next hx =>
      have hax : x = a := by simpa using hx
      exact List.mem_cons.mpr (Or.inl hax.symm)
    next =>
      rw [List.findIdx?_succ] at h
      cases hmap : xs.findIdx? (· == a) with
      | none =>
        rw [hmap] at h
        exact Option.noConfusion h
      | some j => exact List.mem_cons.mpr (Or.inr (ih hmap))

theorem findIdx?_beq_isSome_of_mem {a : Nat} : ∀ {l : List Nat},
    a ∈ l → ∃ i, l.findIdx? (· == a) = some i := by
  intro l
  induction l with
  | nil =>
    intro h
    cases h
  | cons x xs ih =>
    intro h
    rw [List.findIdx?_cons]
    by_cases hx : (x == a) = true
    · exact ⟨0, by rw [if_pos hx]⟩
    · rw [if_neg hx, List.findIdx?_succ]
      have hmem : a ∈ xs := by
        cases List.mem_cons.mp h with
        | inl he =>
          exfalso
          exact hx (by simpa using he.symm)
        | inr hm => exact hm
      obtain ⟨j, hj⟩ := ih hmem
      exact ⟨j + 1, by rw [hj]; rfl⟩

theorem findIdx?_beq_inj {a b : Nat} : ∀ {l : List Nat} {i : Nat},
    l.findIdx? (· == a) = some i → l.findIdx? (· == b) = some i → a = b := by
  intro l
  induction l with
  | nil =>
    intro i h _
    simp [List.findIdx?_nil] at h
  | cons x xs ih =>
    intro i h1 h2
    rw [List.findIdx?_cons] at h1 h2
    split at h1
    next hx =>
      injection h1 with h1
      split at h2
      next hy =>
        have ha : x = a := by simpa using hx
        have hb : x = b := by simpa using hy
        exact ha ▸ hb
      next hy =>
        rw [List.findIdx?_succ] at h2
        cases hmap : xs.findIdx? (· == b) with
        | none =>
          rw [hmap] at h2
          exact Option.noConfusion h2
        | some j =>
          rw [hmap] at h2
          simp at h2
          omega
    next hx =>
      rw [List.findIdx?_succ] at h1
      split at h2
      next hy =>
        injection h2 with h2
        cases hmap : xs.findIdx? (· == a) with
        | none =>
          rw [hmap] at h1
          exact Option.noConfusion h1
        | some j =>
          rw [hmap] at h1
          simp at h1
          omega
      next hy =>
        rw [List.findIdx?_succ] at h2
        cases hma : xs.findIdx? (· == a) with
        | none =>
          rw [hma] at h1
          exact Option.noConfusion h1
        | some ja =>
          cases hmb : xs.findIdx? (· == b) with
          | none =>
            rw [hmb] at h2
            exact Option.noConfusion h2
          | some jb =>
            rw [hma] at h1
            rw [hmb] at h2
            simp at h1 h2
            refine ih hma ?_
            rw [hmb]
            congr 1
            omega

theorem lor_land_zero {a x b : Nat} (h1 : a &&& b = 0) (h2 : x &&& b = 0) :
    (a ||| x) &&& b = 0 := by
  by_contra hne
  obtain ⟨i, hab, hb⟩ := land_ne_zero_elim hne
  rw [Nat.testBit_lor] at hab
  cases (Bool.or_eq_true _ _).mp hab with
  | inl ha => exact land_ne_zero_of_testBit i ha hb h1
  | inr hx => exact land_ne_zero_of_testBit i hx hb h2

theorem pow_land_pow_eq_zero_of_ne {j k : Nat} (h : j ≠ k) :
    (1 <<< j) &&& (1 <<< k) = 0 := by
  by_contra hne
  obtain ⟨i, hj, hk⟩ := land_ne_zero_elim hne
  rw [Nat.one_shiftLeft, Nat.testBit_two_pow] at hj hk
  have hji : j = i := by simpa using hj
  have hki : k = i := by simpa using hk
  exact h (hji.trans hki.symm)

/-! ### resolveTypes lemmas -/

theorem resolveTypes_ok_mem {types : List Nat} :
    ∀ {args : List Nat} {acc : List Nat} {selector : Nat} {r : List Nat × Nat},
    resolveTypes types args acc selector = .ok r → ∀ tid ∈ args, tid ∈ types := by
  intro args
  induction args with
  | nil =>
    intro acc selector r h tid hmem
    cases hmem
  | cons a rest ih =>
    intro acc selector r h tid hmem
    simp only [resolveTypes] at h
    split at h
    next i hfi =>
      split at h
      · exact Except.noConfusion h
      · cases List.mem_cons.mp hmem with
        | inl he => exact he ▸ findIdx?_beq_mem hfi
        | inr hm => exact ih h tid hm
    next => exact Except.noConfusion h

theorem resolveTypes_ok_fresh {types : List Nat} :
    ∀ {args : List Nat} {acc : List Nat} {selector : Nat} {r : List Nat × Nat},
    resolveTypes types args acc selector = .ok r →
    ∀ tid ∈ args, ∃ i, types.findIdx? (· == tid) = some i ∧
      selector &&& (1 <<< i) = 0 := by
  intro args
  induction args with
  | nil =>
    intro acc selector r h tid hmem
    cases hmem
  | cons a rest ih =>
    intro acc selector r h tid hmem
    simp only [resolveTypes] at h
    split at h
    next i hfi =>
      split at h
      · exact Except.noConfusion h
      next hguard =>
        have h0 : selector &&& (1 <<< i) = 0 := by simpa using hguard
        cases List.mem_cons.mp hmem with
        | inl he =>
          subst he
          exact ⟨i, hfi, h0⟩
        | inr hm =>
          obtain ⟨j, hfj, hj0⟩ := ih h tid hm
          exact ⟨j, hfj, land_zero_of_lor_land_zero hj0⟩
    next => exact Except.noConfusion h

theorem resolveTypes_ok_nodup {types : List Nat} :
    ∀ {args : List Nat} {acc : List Nat} {selector : Nat} {r : List Nat × Nat},
    resolveTypes types args acc selector = .ok r → args.Nodup := by
  intro args
  induction args with
  | nil =>
    intro acc selector r h
    exact List.nodup_nil
  | cons a rest ih =>
    intro acc selector r h
    simp only [resolveTypes] at h
    split at h
    next i hfi =>
      split at h
      · exact Except.noConfusion h
      next hguard =>
        refine List.nodup_cons.mpr ⟨?_, ih h⟩
        intro hmem
        obtain ⟨j, hfj, hj0⟩ := resolveTypes_ok_fresh h a hmem
        rw [hfi] at hfj
        injection hfj with hfj
        subst hfj
        exact lor_pow_land_pow_ne_zero selector i hj0
    next => exact Except.noConfusion h

theorem resolveTypes_error_shape {types : List Nat} :
    ∀ {args : List Nat} {acc : List Nat} {selector : Nat} {e : Failure},
    resolveTypes types args acc selector = .error e →
    e = .unregisteredType ∨ e = .duplicateType := by
  intro args
  induction args with
  | nil =>
    intro acc selector e h
    exact Except.noConfusion h
  | cons a rest ih =>
    intro acc selector e h
    simp only [resolveTypes] at h
    split at h
    next i hfi =>
      split at h
      · injection h with h
        exact Or.inr h.symm
      · exact ih h
    next =>
      injection h with h
      exact Or.inl h.symm

theorem resolveTypes_ok_selector {types : List Nat} :
    ∀ {args : List Nat} {acc : List Nat} {selector : Nat} {tis : List Nat} {sel2 : Nat},
    resolveTypes types args acc selector = .ok (tis, sel2) →
    (∀ a ∈ acc, selector &&& (1 <<< a) ≠ 0) →
    ∀ ti ∈ tis, sel2 &&& (1 <<< ti) ≠ 0 := by
  intro args
  induction args with
  | nil =>
    intro acc selector tis sel2 h hacc ti hmem
    simp only [resolveTypes] at h
    injection h with h
    injection h with h1 h2
    subst h1
    subst h2
    exact hacc ti (List.mem_reverse.mp hmem)
  | cons a rest ih =>
    intro acc selector tis sel2 h hacc ti hmem
    simp only [resolveTypes] at h
    split at h
    next i hfi =>
      split at h
      · exact Except.noConfusion h
      next hguard =>
        refine ih h ?_ ti hmem
        intro x hx
        cases List.mem_cons.mp hx with
        | inl he =>
          subst he
          exact lor_pow_land_pow_ne_zero selector x
        | inr hm => exact land_ne_zero_lor_left (hacc x hm)
    next => exact Except.noConfusion h

theorem resolveTypes_ok_of_wf {types : List Nat} :
    ∀ {args : List Nat} {acc : List Nat} {selector : Nat},
    (∀ tid ∈ args, tid ∈ types) → args.Nodup →
    (∀ tid ∈ args, ∀ i, types.findIdx? (· == tid) = some i →
      selector &&& (1 <<< i) = 0) →
    ∃ r, resolveTypes types args acc selector = .ok r := by
  intro args
  induction args with
  | nil =>
    intro acc selector hall hnd hfree
    exact ⟨_, rfl⟩
  | cons a rest ih =>
    intro acc selector hall hnd hfree
    obtain ⟨ia, hfi⟩ := findIdx?_beq_isSome_of_mem (hall a (List.mem_cons_self a rest))
    have h0 : selector &&& (1 <<< ia) = 0 := hfree a (List.mem_cons_self a rest) ia hfi
    simp only [resolveTypes, hfi]
    rw [if_neg (by simp [h0])]
    obtain ⟨hnotmem, hndrest⟩ := List.nodup_cons.mp hnd
    refine ih (fun tid hm => hall tid (List.mem_cons_of_mem a hm)) hndrest ?_
    intro tid hm i hfj
    have hne : ia ≠ i := by
      intro he
      subst he
      exact hnotmem ((findIdx?_beq_inj hfi hfj) ▸ hm)
    exact lor_land_zero (hfree tid (List.mem_cons_of_mem a hm) i hfj)
      (pow_land_pow_eq_zero_of_ne hne)

/-- C6: attaching a type whose bit is already in the entity's current mask
leaves the entire store unchanged — no block change, no Location Index
change, and the previously stored value for the type is not overwritten
(the result is the original manager itself). -/
theorem c6_reattach_is_noop (m : GearDataManager) (t : RType)
    (gearId value ti index mask : Nat)
    (hti : m.getTypeIndex t = some ti)
    (hg : 1 ≤ gearId) (hk : gearId - 1 < lookupLen)
    (hie : (m.lookup (gearId - 1)).index = some index)
    (hmask : m.blockMasks[(m.lookup (gearId - 1)).blockIndex]? = some mask)
    (hbit : mask &&& (1 <<< ti) ≠ 0) :
    m.add t gearId value = .ok m := by
  have hrd : readLookupF m.lookup gearId = some (m.lookup (gearId - 1)) := by
    unfold readLookupF
    rw [if_pos ⟨hg, hk⟩]
  simp only [GearDataManager.add, hti, hrd, hie, hmask]
  rw [lor_eq_self_of_land_ne_zero hbit]
  simp

theorem c6_reattach_is_noop_witness :
    exampleStore.add typeA 1 9 = .ok exampleStore :=
  c6_reattach_is_noop exampleStore typeA 1 9 0 1 1 rfl (by decide) (by decide)
    rfl rfl (by decide)

/-- C8: a query containing an unregistered type or the same type twice makes
`iter_id` fail synchronously during argument resolution — the returned value
is an error, no callback invocation is produced for any slot, and the store
is untouched (the modelled iteration is read-only). -/
theorem c8_iterate_rejects_bad_query (m : GearDataManager) (argTypes : List Nat)
    (hbad : ¬((∀ tid ∈ argTypes, tid ∈ m.types) ∧ argTypes.Nodup)) :
    ∃ e, m.iterId argTypes = .error e ∧
      (e = .unregisteredType ∨ e = .duplicateType) := by
  cases hres : resolveTypes m.types argTypes [] 0 with
  | ok r => exact absurd ⟨resolveTypes_ok_mem hres, resolveTypes_ok_nodup hres⟩ hbad
  | error e =>
    refine ⟨e, ?_, resolveTypes_error_shape hres⟩
    simp only [GearDataManager.iterId, hres]

theorem c8_iterate_rejects_bad_query_witness :
    (∃ e, exampleStore.iterId [5] = .error e ∧
      (e = .unregisteredType ∨ e = .duplicateType)) ∧
    (∃ e, exampleStore.iterId [0, 0] = .error e ∧
      (e = .unregisteredType ∨ e = .duplicateType)) :=
  ⟨c8_iterate_rejects_bad_query exampleStore [5] (by decide),
   c8_iterate_rejects_bad_query exampleStore [0, 0] (by decide)⟩

/-- C9: `register` is a no-op for an already registered type; it fails when
the type needs destruction, when its size exceeds 65,535 bytes, or when 64
or more types are already registered and the type is new; on success it
appends the type (the next sequential slot index) and records its byte
size. -/
theorem c9_register_spec (m : GearDataManager) (t : RType) :
    (¬t.needsDrop = true → t.size ≤ 65535 → m.types.length ≤ 64 → t.tid ∈ m.types →
      m.register t = .ok m) ∧
    (t.needsDrop = true → ∃ e, m.register t = .error e) ∧
    (65535 < t.size → ∃ e, m.register t = .error e) ∧
    (t.tid ∉ m.types → 64 ≤ m.types.length → ∃ e, m.register t = .error e) ∧
    (¬t.needsDrop = true → t.size ≤ 65535 → t.tid ∉ m.types → m.types.length < 64 →
      m.register t = .ok { m with
        elementSizes := updFn m.elementSizes m.types.length t.size
        types := m.types ++ [t.tid] }) := by
  refine ⟨?_, ?_, ?_, ?_, ?_⟩
  · intro hd hs hl hmem
    simp [GearDataManager.register, hd, hs, hl, hmem]
  · intro hd
    exact ⟨.assertViolation "needs_drop is false", by simp [GearDataManager.register, hd]⟩
  · intro hs
    by_cases hd : t.needsDrop = true
    · exact ⟨.assertViolation "needs_drop is false", by simp [GearDataManager.register, hd]⟩
    by_cases hl : m.types.length ≤ 64
    · have hs2 : ¬t.size ≤ 65535 := by omega
      exact ⟨.assertViolation "size_of::<T>() <= u16 max",
        by simp [GearDataManager.register, hd, hl, hs2]⟩
    · exact ⟨.assertViolation "types.len() <= 64",
        by simp [GearDataManager.register, hd, hl]⟩
  · intro hmem hl64
    by_cases hd : t.needsDrop = true
    · exact ⟨.assertViolation "needs_drop is false", by simp [GearDataManager.register, hd]⟩
    by_cases hl : m.types.length ≤ 64
    · by_cases hs : t.size ≤ 65535
      · have hlt : ¬m.types.length < 64 := by omega
        exact ⟨.indexOutOfRange,
          by simp [GearDataManager.register, hd, hl, hs, hmem, hlt]⟩
      · exact ⟨.assertViolation "size_of::<T>() <= u16 max",
          by simp [GearDataManager.register, hd, hl, hs]⟩
    · exact ⟨.assertViolation "types.len() <= 64",
        by simp [GearDataManager.register, hd, hl]⟩
  · intro hd hs hmem hlt
    have hl : m.types.length ≤ 64 := by omega
    simp [GearDataManager.register, hd, hs, hl, hmem, hlt]

theorem c9_register_spec_witness :
    GearDataManager.new.register typeA = .ok { GearDataManager.new with
      elementSizes := updFn GearDataManager.new.elementSizes
        GearDataManager.new.types.length typeA.size
      types := GearDataManager.new.types ++ [typeA.tid] } :=
  (c9_register_spec GearDataManager.new typeA).2.2.2.2 (by decide) (by decide)
    (by decide) (by decide)

theorem superset_bit {mask sel : Nat} (hsup : mask &&& sel = sel) {k : Nat}
    (hk : sel &&& (1 <<< k) ≠ 0) : mask &&& (1 <<< k) ≠ 0 := by
  have hts := testBit_of_land_pow_ne_zero hk
  refine land_pow_ne_zero_of_testBit ?_
  have hcong := congrArg (fun n => n.testBit k) hsup
  simp only [Nat.testBit_land] at hcong
  rw [hts] at hcong
  simpa using hcong

theorem resolveColumns_of_present (b : DataBlock) :
    ∀ (tis : List Nat), (∀ ti ∈ tis, b.columns ti ≠ none) →
    ∃ cols, resolveColumns b tis = some cols ∧
      ∀ s, cols.map (fun c => c s) = tis.map (fun ti => columnCell b ti s) := by
  intro tis
  induction tis with
  | nil => exact fun _ => ⟨[], rfl, fun s => rfl⟩
  | cons ti rest ih =>
    intro hp
    cases hcol : b.columns ti with
    | none => exact absurd hcol (hp ti (List.mem_cons_self ti rest))
    | some col =>
      obtain ⟨cols, hres, hmap⟩ := ih (fun x hx => hp x (List.mem_cons_of_mem ti hx))
      refine ⟨col :: cols, ?_, ?_⟩
      · simp only [resolveColumns, hcol, hres]
      · intro s
        simp only [List.map_cons, hmap s]
        congr 1
        simp [columnCell, hcol]

theorem iterBlocks_spec (m : GearDataManager) (typeIndices : List Nat) (selector : Nat)
    (hmlen : m.blockMasks.length = m.blocks.length)
    (hcols : HasMaskColumns m)
    (htis : ∀ ti ∈ typeIndices, selector &&& (1 <<< ti) ≠ 0) :
    ∀ (L : List Nat), (∀ bi ∈ L, bi < m.blockMasks.length) →
    iterBlocks m typeIndices selector L = .ok
      ((L.filter (fun bi => m.blockMasks.getD bi 0 &&& selector == selector)).flatMap
        (fun bi =>
          (List.range (blocksAt m.blocks bi).elementsCount).map
            (fun s => ((blocksAt m.blocks bi).ids s,
              typeIndices.map (fun ti => columnCell (blocksAt m.blocks bi) ti s))))) := by
  intro L
  induction L with
  | nil => exact fun _ => rfl
  | cons bi rest ih =>
    intro hL
    have hbi : bi < m.blockMasks.length := hL bi (List.mem_cons_self bi rest)
    have hbl : bi < m.blocks.length := by omega
    simp only [iterBlocks]
    by_cases hsup : (m.blockMasks.getD bi 0 &&& selector == selector) = true
    · rw [if_pos hsup]
      have hsome : m.blocks[bi]? = some (blocksAt m.blocks bi) := by
        rw [List.getElem?_eq_getElem hbl]
        congr 1
        unfold blocksAt
        rw [List.getD_eq_getElem?_getD, List.getElem?_eq_getElem hbl]
        rfl
      have hpres : ∀ ti ∈ typeIndices, (blocksAt m.blocks bi).columns ti ≠ none := by
        intro ti hti
        exact hcols bi hbi ti (superset_bit (by simpa using hsup) (htis ti hti))
      obtain ⟨cols, hres, hmap⟩ := resolveColumns_of_present _ typeIndices hpres
      have hrest := ih (fun x hx => hL x (List.mem_cons_of_mem bi hx))
      simp only [hsome, hres, hrest]
      simp only [List.filter_cons]
      rw [if_pos hsup, List.flatMap_cons]
      have hfn : (fun s => ((blocksAt m.blocks bi).ids s, cols.map (fun c => c s))) =
          (fun s => ((blocksAt m.blocks bi).ids s,
            typeIndices.map (fun ti => columnCell (blocksAt m.blocks bi) ti s))) := by
        funext s
        rw [hmap s]
      rw [hfn]
    · rw [if_neg hsup]
      simp only [List.filter_cons]
      rw [if_neg hsup]
      exact ih (fun x hx => hL x (List.mem_cons_of_mem bi hx))

/-- C7: for every well-formed query (all requested types registered, no
duplicates) on a store whose blocks carry a column per mask bit, iteration
resolves the query and invokes the callback exactly once per occupied slot
of every block whose mask is a superset of the selector, visiting blocks in
creation order and slots in index order, passing the slot identifier and the
requested columns' cells in query order (`iterSpecVisits`, modelled from the
spec). -/
theorem c7_iterate_visits (m : GearDataManager) (argTypes : List Nat)
    (hall : ∀ tid ∈ argTypes, tid ∈ m.types) (hnd : argTypes.Nodup)
    (hmlen : m.blockMasks.length = m.blocks.length)
    (hcols : HasMaskColumns m) :
    ∃ typeIndices selector,
      resolveTypes m.types argTypes [] 0 = .ok (typeIndices, selector) ∧
      m.iterId argTypes = .ok (iterSpecVisits m typeIndices selector) := by
  obtain ⟨⟨tis, sel⟩, hres⟩ := resolveTypes_ok_of_wf hall hnd
    (fun tid _ i _ => Nat.zero_and _)
  refine ⟨tis, sel, hres, ?_⟩
  have htis := resolveTypes_ok_selector hres (fun a ha => absurd ha (List.not_mem_nil a))
  simp only [GearDataManager.iterId, hres]
  rw [iterBlocks_spec m tis sel hmlen hcols htis (List.range m.blockMasks.length)
    (fun bi hbi => List.mem_range.mp hbi)]
  rfl

theorem c7_iterate_visits_witness :
    ∃ typeIndices selector,
      resolveTypes exampleStore.types [0] [] 0 = .ok (typeIndices, selector) ∧
      exampleStore.iterId [0] = .ok (iterSpecVisits exampleStore typeIndices selector) :=
  c7_iterate_visits exampleStore [0] (by decide) (by simp) rfl (by
    intro bi hbi k hk
    have hb0 : bi = 0 := by
      have : exampleStore.blockMasks.length = 1 := rfl
      omega
    subst hb0
    have hm1 : exampleStore.blockMasks.getD 0 0 = 1 := rfl
    rw [hm1] at hk
    have htb := testBit_of_land_pow_ne_zero hk
    have hk0 : k = 0 := by
      have h2 : (2 ^ 0 : Nat).testBit k = true := by simpa using htb
      rw [Nat.testBit_two_pow] at h2
      have h3 : 0 = k := by simpa using h2
      omega
    subst hk0
    intro hnone
    exact Option.noConfusion hnone)

theorem copyStep_columns {srcMask srcIndex destIndex : Nat} {p p2 : DataBlock × DataBlock}
    {i : Nat} (h : copyStep srcMask srcIndex destIndex p i = .ok p2) :
    (∀ k, k ≠ i → p2.1.columns k = p.1.columns k ∧ p2.2.columns k = p.2.columns k) ∧
    (srcMask &&& (1 <<< i) = 0 → p2 = p) ∧
    (srcMask &&& (1 <<< i) ≠ 0 →
      ∃ sCol dCol, p.1.columns i = some sCol ∧ p.2.columns i = some dCol ∧
        p2.2.columns i = some (updFn dCol destIndex (sCol srcIndex))) := by
  unfold copyStep at h
  split at h
  next hbit =>
    have hbit2 : srcMask &&& (1 <<< i) ≠ 0 := by simpa using hbit
    split at h
    next sCol dCol hs hd =>
      injection h with h
      subst h
      refine ⟨?_, fun h0 => absurd h0 hbit2, ?_⟩
      · intro k hk
        constructor
        · split
          · exact updFn_other _ _ _ _ hk
          · rfl
        · exact updFn_other _ _ _ _ hk
      · intro _
        exact ⟨sCol, dCol, hs, hd, updFn_same _ _ _⟩
    next => exact Except.noConfusion h
  next hbit =>
    have hbit2 : srcMask &&& (1 <<< i) = 0 := by simpa using hbit
    injection h with h
    subst h
    exact ⟨fun k _ => ⟨rfl, rfl⟩, fun _ => rfl, fun hc => absurd hbit2 hc⟩

theorem foldlM_copyStep_columns {srcMask srcIndex destIndex : Nat} :
    ∀ (L : List Nat), L.Nodup → ∀ (p p2 : DataBlock × DataBlock),
    List.foldlM (copyStep srcMask srcIndex destIndex) p L = .ok p2 →
    (∀ k, k ∉ L → p2.1.columns k = p.1.columns k ∧ p2.2.columns k = p.2.columns k) ∧
    (∀ k ∈ L, srcMask &&& (1 <<< k) ≠ 0 →
      ∃ sCol dCol, p.1.columns k = some sCol ∧ p.2.columns k = some dCol ∧
        p2.2.columns k = some (updFn dCol destIndex (sCol srcIndex))) ∧
    (∀ k, srcMask &&& (1 <<< k) = 0 →
      p2.1.columns k = p.1.columns k ∧ p2.2.columns k = p.2.columns k) := by
  intro L
  induction L with
  | nil =>
    intro _ p p2 h
    simp only [List.foldlM_nil] at h
    injection h with h
    subst h
    exact ⟨fun k _ => ⟨rfl, rfl⟩, fun k hk => absurd hk (List.not_mem_nil k),
      fun k _ => ⟨rfl, rfl⟩⟩
  | cons a L ih =>
    intro hnd p p2 h
    obtain ⟨hna, hndL⟩ := List.nodup_cons.mp hnd
    rw [List.foldlM_cons] at h
    cases hstep : copyStep srcMask srcIndex destIndex p a with
    | error e =>
      rw [hstep] at h
      simp only [Bind.bind, Except.bind] at h
      exact Except.noConfusion h
    | ok p1 =>
      rw [hstep] at h
      simp only [Bind.bind, Except.bind] at h
      obtain ⟨hsother, hszero, hsbit⟩ := copyStep_columns hstep
      obtain ⟨hother, hbit, hzero⟩ := ih hndL p1 p2 h
      refine ⟨?_, ?_, ?_⟩
      · intro k hk
        have hka : k ≠ a := fun he => hk (he ▸ List.mem_cons_self a L)
        have hkL : k ∉ L := fun hm => hk (List.mem_cons_of_mem a hm)
        obtain ⟨e1, e2⟩ := hother k hkL
        obtain ⟨f1, f2⟩ := hsother k hka
        exact ⟨e1.trans f1, e2.trans f2⟩
      · intro k hk hkbit
        cases List.mem_cons.mp hk with
        | inl he =>
          subst he
          obtain ⟨sCol, dCol, hs, hd, hout⟩ := hsbit hkbit
          refine ⟨sCol, dCol, hs, hd, ?_⟩
          rw [← hout]
          exact (hother k hna).2
        | inr hm =>
          obtain ⟨sCol, dCol, hs, hd, hout⟩ := hbit k hm hkbit
          have hka : k ≠ a := fun he => hna (he ▸ hm)
          obtain ⟨f1, f2⟩ := hsother k hka
          exact ⟨sCol, dCol, f1.symm.trans hs, f2.symm.trans hd, hout⟩
      · intro k hkbit
        obtain ⟨e1, e2⟩ := hzero k hkbit
        by_cases hka : k = a
        · subst hka
          have hpp := hszero hkbit
          rw [hpp] at e1 e2
          exact ⟨e1, e2⟩
        · obtain ⟨f1, f2⟩ := hsother k hka
          exact ⟨e1.trans f1, e2.trans f2⟩

theorem ensureBlock_mask {m m1 : GearDataManager} {mask di : Nat}
    (hlen : m.blockMasks.length = m.blocks.length)
    (h : m.ensureBlock mask = .ok (m1, di)) :
    m1.blockMasks.getD di 0 = mask ∧ di < m1.blockMasks.length := by
  unfold GearDataManager.ensureBlock at h
  split at h
  next index hfind =>
    injection h with h
    injection h with h1 h2
    subst h1
    subst h2
    have hp := List.find?_some hfind
    have hmem := List.mem_of_find?_eq_some hfind
    rw [List.mem_range] at hmem
    simp only [Bool.and_eq_true] at hp
    exact ⟨by simpa using hp.1, hmem⟩
  · split at h
    · exact Except.noConfusion h
    next b hnew =>
      injection h with h
      injection h with h1 h2
      subst h1
      subst h2
      constructor
      · rw [List.getD_eq_getElem?_getD, List.getElem?_append_right (by omega)]
        simp [hlen]
      · simp only [List.length_append, List.length_cons, List.length_nil]
        omega

set_option maxRecDepth 8000 in
/-- Success characterization of `move_between_blocks`: the moved identifier
is appended at the destination (identifier, lookup entry, occupancy), the
source loses one occupied slot, every source-mask column value is copied to
the new destination slot, and destination columns outside the source mask
are untouched. -/
theorem moveBetweenBlocks_ok_spec {m m2 : GearDataManager} {src srcIdx dest : Nat}
    (h : m.moveBetweenBlocks src srcIdx dest = .ok m2) :
    src ≠ dest ∧ src < m.blocks.length ∧ dest < m.blocks.length ∧
    ∃ srcMask, m.blockMasks[src]? = some srcMask ∧
      srcIdx < (blocksAt m.blocks src).elementsCount ∧
      (blocksAt m2.blocks dest).elementsCount =
        (blocksAt m.blocks dest).elementsCount + 1 ∧
      (blocksAt m2.blocks src).elementsCount =
        (blocksAt m.blocks src).elementsCount - 1 ∧
      (blocksAt m2.blocks dest).ids (blocksAt m.blocks dest).elementsCount =
        (blocksAt m.blocks src).ids srcIdx ∧
      m2.lookup ((blocksAt m.blocks src).ids srcIdx - 1) =
        LookupEntry.make dest (blocksAt m.blocks dest).elementsCount ∧
      (∀ k, k < m.types.length → srcMask &&& (1 <<< k) ≠ 0 →
        columnCell (blocksAt m2.blocks dest) k (blocksAt m.blocks dest).elementsCount =
        columnCell (blocksAt m.blocks src) k srcIdx) ∧
      (∀ k, srcMask &&& (1 <<< k) = 0 →
        (blocksAt m2.blocks dest).columns k = (blocksAt m.blocks dest).columns k) := by
  simp only [GearDataManager.moveBetweenBlocks] at h
  split at h
  next hne0 =>
    have hne : src ≠ dest := by simpa using hne0
    split at h
    next srcMask destMask hm1 hm2 =>
      split at h
      next hsup =>
        split at h
        next srcBlock destBlock hb1 hb2 =>
          have hsrcl := lt_length_of_getElem? hb1
          have hdestl := lt_length_of_getElem? hb2
          have hbas := blocksAt_getElem? hb1
          have hbad := blocksAt_getElem? hb2
          split at h
          next hidx =>
            split at h
            next hfull =>
              split at h
              · exact Except.noConfusion h
              next sb2 db2 hcc =>
                obtain ⟨s1, s2, s3, d1, d2, d3⟩ := copyColumns_fields hcc
                obtain ⟨hcout, hcbit, hczero⟩ :=
                  foldlM_copyStep_columns (List.range m.types.length)
                    (List.nodup_range _) (srcBlock, destBlock) (sb2, db2) hcc
                split at h
                next hms =>
                  split at h
                  · exact Except.noConfusion h
                  next sb3 lookup1 heqstep =>
                    have hsb3 : sb3.elementsCount = sb2.elementsCount := by
                      split at heqstep
                      · split at heqstep
                        · split at heqstep
                          · exact Except.noConfusion heqstep
                          next lk hw1 =>
                            injection heqstep with hp
                            injection hp with h1 h2
                            rw [← h1]
                        · exact Except.noConfusion heqstep
                      · injection heqstep with hp
                        injection hp with h1 h2
                        rw [← h1]
                    split at h
                    next hdm =>
                      split at h
                      · exact Except.noConfusion h
                      next lookup2 hw2 =>
                        obtain ⟨hg2, hk2, he2⟩ := writeLookupF_eq_some hw2
                        subst he2
                        injection h with h
                        subst h
                        rw [hbas, hbad] at *
                        refine ⟨hne, hsrcl, hdestl, srcMask, hm1, hidx, ?_, ?_, ?_, ?_, ?_, ?_⟩
                        · rw [blocksAt_set_same _ _ _ (by simpa using hdestl)]
                          simpa using d2
                        · rw [blocksAt_set_other _ _ _ _ hne,
                            blocksAt_set_same _ _ _ hsrcl]
                          simp only [hsb3, s2]
                        · rw [blocksAt_set_same _ _ _ (by simpa using hdestl)]
                          simp only [← d2, updFn_same, s1]
                        · rw [← s1]
                          simp only [updFn_same, ← d2]
                        · intro k hkt hkbit
                          rw [blocksAt_set_same _ _ _ (by simpa using hdestl)]
                          obtain ⟨sCol, dCol, hs, hd, hout⟩ :=
                            hcbit k (List.mem_range.mpr hkt) hkbit
                          have hs2 : srcBlock.columns k = some sCol := hs
                          have hout2 : db2.columns k =
                              some (updFn dCol destBlock.elementsCount (sCol srcIdx)) := hout
                          simp only [columnCell, hout2, hs2]
                          rw [updFn_same]
                        · intro k hkbit
                          rw [blocksAt_set_same _ _ _ (by simpa using hdestl)]
                          exact (hczero k hkbit).2
                    · exact Except.noConfusion h
                · exact Except.noConfusion h
            · exact Except.noConfusion h
          · exact Except.noConfusion h
        next => exact Except.noConfusion h
      · exact Except.noConfusion h
    next => exact Except.noConfusion h
  · exact Except.noConfusion h

set_option maxRecDepth 8000 in
/-- C5: attaching a type whose bit is not in the entity's current mask
relocates the entity to a block whose mask is the union of the old mask and
the type's bit, copies every column of the old mask into the corresponding
destination columns at a newly appended slot, frees the old slot by
swap-removal (occupancy decremented), and leaves the destination column for
the attached type exactly as it was — the supplied value is not written
(the result is independent of the value). -/
theorem c5_attach_new_type_relocates (m m2 : GearDataManager) (t : RType)
    (gearId value ti index mask : Nat)
    (hInv : ManagerInv m)
    (hti : m.getTypeIndex t = some ti)
    (hg : 1 ≤ gearId) (hk : gearId - 1 < lookupLen)
    (hie : (m.lookup (gearId - 1)).index = some index)
    (hmask : m.blockMasks[(m.lookup (gearId - 1)).blockIndex]? = some mask)
    (hbit : mask &&& (1 <<< ti) = 0)
    (h : m.add t gearId value = .ok m2) :
    (∀ w, m.add t gearId w = .ok m2) ∧
    ∃ m1 di,
      m.ensureBlock (mask ||| (1 <<< ti)) = .ok (m1, di) ∧
      m1.blockMasks.getD di 0 = mask ||| (1 <<< ti) ∧
      m2.lookup (gearId - 1) =
        LookupEntry.make di (blocksAt m1.blocks di).elementsCount ∧
      (blocksAt m2.blocks di).ids (blocksAt m1.blocks di).elementsCount = gearId ∧
      (blocksAt m2.blocks di).elementsCount = (blocksAt m1.blocks di).elementsCount + 1 ∧
      (∀ k, k < m.types.length → mask &&& (1 <<< k) ≠ 0 →
        columnCell (blocksAt m2.blocks di) k (blocksAt m1.blocks di).elementsCount =
        columnCell (blocksAt m.blocks (m.lookup (gearId - 1)).blockIndex) k (index - 1)) ∧
      columnCell (blocksAt m2.blocks di) ti (blocksAt m1.blocks di).elementsCount =
        columnCell (blocksAt m1.blocks di) ti (blocksAt m1.blocks di).elementsCount ∧
      (blocksAt m2.blocks (m.lookup (gearId - 1)).blockIndex).elementsCount =
        (blocksAt m.blocks (m.lookup (gearId - 1)).blockIndex).elementsCount - 1 := by
  have hrd : readLookupF m.lookup gearId = some (m.lookup (gearId - 1)) := by
    unfold readLookupF
    rw [if_pos ⟨hg, hk⟩]
  have hneq : (mask ||| (1 <<< ti) != mask) = true := by
    simpa using lor_ne_self_of_land_eq_zero hbit
  have hred : ∀ w, m.add t gearId w =
      (match m.ensureBlock (mask ||| (1 <<< ti)) with
       | .error e => .error e
       | .ok (m1, destBlockIndex) =>
          m1.moveBetweenBlocks (m.lookup (gearId - 1)).blockIndex
            (index - 1) destBlockIndex) := by
    intro w
    simp only [GearDataManager.add, hti, hrd, hie, hmask, hneq, if_true]
  rw [hred value] at h
  cases hens : m.ensureBlock (mask ||| (1 <<< ti)) with
  | error e =>
    rw [hens] at h
    exact Except.noConfusion h
  | ok p =>
    obtain ⟨m1, di⟩ := p
    rw [hens] at h
    obtain ⟨hInv1, hlk1, hty1, _, _, hpres, hmasks⟩ := ensureBlock_ok hInv hens
    obtain ⟨hmaskdi, hdilen⟩ := ensureBlock_mask hInv.1 hens
    obtain ⟨hnesd, hsrcl1, hdestl1, srcMask, hm1, hidx1, hdc, hsc, hdids, hdlk, hcopy, hzero⟩ :=
      moveBetweenBlocks_ok_spec h
    have hsrclen : (m.lookup (gearId - 1)).blockIndex < m.blockMasks.length :=
      lt_length_of_getElem? hmask
    have hsrclb : (m.lookup (gearId - 1)).blockIndex < m.blocks.length := by
      have := hInv.1
      omega
    have hsm : srcMask = mask := by
      have := hmasks _ hsrclen
      rw [this, hmask] at hm1
      exact (Option.some.inj hm1).symm
    subst hsm
    have hbsame : blocksAt m1.blocks (m.lookup (gearId - 1)).blockIndex =
        blocksAt m.blocks (m.lookup (gearId - 1)).blockIndex := hpres _ hsrclb
    have hgid : (blocksAt m.blocks (m.lookup (gearId - 1)).blockIndex).ids (index - 1) =
        gearId := by
      obtain ⟨h1i, _, _, hids⟩ := hInv.2.entrySound (gearId - 1) hk index hie
      rw [hids]
      omega
    rw [hbsame] at hdids hdlk hcopy hsc hidx1
    rw [hgid] at hdids hdlk
    constructor
    · intro w
      rw [hred w, hens]
      exact h
    refine ⟨m1, di, rfl, hmaskdi, hdlk, hdids, hdc, ?_, ?_, hsc⟩
    · intro k hkt hkbit
      refine hcopy k ?_ hkbit
      rw [hty1]
      exact hkt
    · have hcols := hzero ti hbit
      simp only [columnCell, hcols]

theorem c5_attach_new_type_relocates_witness :
    ∃ m2, exampleStore2.add typeB 1 7 = .ok m2 ∧
      ∀ w, exampleStore2.add typeB 1 w = .ok m2 := by
  have hInv2 : ManagerInv exampleStore2 :=
    @runOps_inv [Op.register typeA, Op.add typeA 1 5, Op.register typeB]
      GearDataManager.new exampleStore2 managerInv_new rfl
  refine ⟨_, rfl, ?_⟩
  intro w
  exact (c5_attach_new_type_relocates exampleStore2 _ typeB 1 7 1 1 1
    hInv2 rfl (by decide) (by decide) rfl rfl (by decide) rfl).1 w

theorem copyStep_error_shape {srcMask srcIndex destIndex : Nat} {p : DataBlock × DataBlock}
    {i : Nat} {e : Failure} (h : copyStep srcMask srcIndex destIndex p i = .error e) :
    e = .unwrapFailed := by
  unfold copyStep at h
  split at h
  · split at h
    · exact Except.noConfusion h
    · injection h with h
      exact h.symm
  · exact Except.noConfusion h

theorem foldlM_copyStep_error_shape {srcMask srcIndex destIndex : Nat} :
    ∀ (L : List Nat) (p : DataBlock × DataBlock) {e : Failure},
    List.foldlM (copyStep srcMask srcIndex destIndex) p L = .error e →
    e = .unwrapFailed := by
  intro L
  induction L with
  | nil =>
    intro p e h
    simp only [List.foldlM_nil] at h
    exact Except.noConfusion h
  | cons a L ih =>
    intro p e h
    rw [List.foldlM_cons] at h
    cases hstep : copyStep srcMask srcIndex destIndex p a with
    | error e2 =>
      rw [hstep] at h
      simp only [Bind.bind, Except.bind] at h
      injection h with h
      exact h ▸ copyStep_error_shape hstep
    | ok p1 =>
      rw [hstep] at h
      simp only [Bind.bind, Except.bind] at h
      exact ih p1 h

theorem DataBlock.new_error_shape {mask : Nat} {sizes : List Nat} {e : Failure}
    (h : DataBlock.new mask sizes = .error e) : e = .arithmeticOverflow := by
  simp only [DataBlock.new] at h
  split at h
  · exact Except.noConfusion h
  · injection h with h
    exact h.symm

theorem writeLookupF_valid_ne_none {lk : Nat → LookupEntry} {gid : Nat} {e : LookupEntry}
    (hv : ValidId gid) : writeLookupF lk gid e ≠ none := by
  unfold writeLookupF
  rw [if_pos ⟨hv.1, by have := hv.2; unfold lookupLen at *; omega⟩]
  simp

/-- `add_to_block` never reports IdentifierOutOfRange for a valid
identifier. -/
theorem addToBlock_no_idOOB {m : GearDataManager} {gearId blockIndex value : Nat}
    (hvalid : ValidId gearId) :
    m.addToBlock gearId blockIndex value ≠ .error .identifierOutOfRange := by
  intro h
  simp only [GearDataManager.addToBlock] at h
  split at h
  · simp at h
  next mask hmask =>
    split at h
    next =>
      split at h
      · simp at h
      next block hblock =>
        split at h
        next =>
          split at h
          · simp at h
          next col hcol =>
            split at h
            next hw => exact writeLookupF_valid_ne_none hvalid hw
            next lookup1 hw1 => simp at h
        · simp at h
    · simp at h

set_option maxRecDepth 8000 in
/-- `move_between_blocks` never reports IdentifierOutOfRange on an invariant
store (all stored identifiers are valid). -/
theorem moveBetweenBlocks_no_idOOB {m : GearDataManager} {src srcIdx dest : Nat}
    (hInv : ManagerInv m) :
    m.moveBetweenBlocks src srcIdx dest ≠ .error .identifierOutOfRange := by
  intro h
  simp only [GearDataManager.moveBetweenBlocks] at h
  split at h
  next =>
    split at h
    next srcMask destMask hm1 hm2 =>
      split at h
      next =>
        split at h
        next srcBlock destBlock hb1 hb2 =>
          have hsrcl := lt_length_of_getElem? hb1
          have hbas := blocksAt_getElem? hb1
          split at h
          next hidx =>
            split at h
            next =>
              split at h
              next e hcc =>
                injection h with h
                have := foldlM_copyStep_error_shape _ _ hcc
                rw [h] at this
                simp at this
              next sb2 db2 hcc =>
                obtain ⟨s1, s2, s3, d1, d2, d3⟩ := copyColumns_fields hcc
                split at h
                next =>
                  split at h
                  next e heqstep =>
                    injection h with h
                    subst h
                    split at heqstep
                    next hrel =>
                      split at heqstep
                      next =>
                        split at heqstep
                        next hw1 =>
                          have hvr : ValidId (sb2.ids (sb2.elementsCount - 1)) := by
                            rw [s1, s2]
                            rw [← hbas]
                            exact hInv.2.slotValid src hsrcl _
                              (by rw [hbas]; omega)
                          injection heqstep with heqstep
                          exact writeLookupF_valid_ne_none hvr hw1
                        next lk hw1 => exact Except.noConfusion heqstep
                      next =>
                        injection heqstep with heqstep
                        simp at heqstep
                    next => exact Except.noConfusion heqstep
                  next sb3 lookup1 heqstep =>
                    split at h
                    next =>
                      split at h
                      next hw2 =>
                        have hvg : ValidId (sb2.ids srcIdx) := by
                          rw [s1, ← hbas]
                          exact hInv.2.slotValid src hsrcl srcIdx (by rw [hbas]; omega)
                        exact writeLookupF_valid_ne_none hvg hw2
                      next lookup2 hw2 => simp at h
                    · simp at h
                · simp at h
            · simp at h
          · simp at h
        next => simp at h
      · simp at h
    next => simp at h
  · simp at h

/-- The swap-removal tail never reports IdentifierOutOfRange on an invariant
store. -/
theorem removeFromBlockTail_no_idOOB {m : GearDataManager} {bi idx : Nat} {block1 : DataBlock}
    (hInv : ManagerInv m) (hbi : bi < m.blocks.length)
    (hf1 : block1.ids = (blocksAt m.blocks bi).ids)
    (hf2 : block1.elementsCount = (blocksAt m.blocks bi).elementsCount)
    (hidx : idx < (blocksAt m.blocks bi).elementsCount) :
    removeFromBlockTail m bi idx block1 ≠ .error .identifierOutOfRange := by
  intro h
  have hvout : ValidId (block1.ids idx) := by
    rw [hf1]
    exact hInv.2.slotValid bi hbi idx hidx
  simp only [removeFromBlockTail] at h
  split at h
  next =>
    split at h
    next hw1 => exact writeLookupF_valid_ne_none hvout hw1
    next lookup1 hw1 =>
      split at h
      next hrel =>
        split at h
        next =>
          split at h
          next hw2 =>
            have hvr : ValidId (updFn block1.ids idx
                (block1.ids (block1.elementsCount - 1)) (block1.elementsCount - 1)) := by
              rw [updFn_other _ _ _ _ (by omega), hf1, hf2]
              exact hInv.2.slotValid bi hbi _ (by rw [← hf2]; omega)
            exact writeLookupF_valid_ne_none hvr hw2
          next lookup2 hw2 => simp at h
        · simp at h
      next => simp at h
  · simp at h

/-- `remove_from_block` never reports IdentifierOutOfRange on an invariant
store. -/
theorem removeFromBlock_no_idOOB {m : GearDataManager} {bi idx : Nat}
    (hInv : ManagerInv m) :
    m.removeFromBlock bi idx ≠ .error .identifierOutOfRange := by
  intro h
  unfold GearDataManager.removeFromBlock at h
  split at h
  · simp at h
  next block hblock =>
    split at h
    next hidx =>
      obtain ⟨hf1, hf2, hf3⟩ := foldl_rfbStep_fields idx (List.range 64) block
      have hba := blocksAt_getElem? hblock
      exact removeFromBlockTail_no_idOOB hInv (lt_length_of_getElem? hblock)
        (by rw [hba]; exact hf1) (by rw [hba]; exact hf2) (by rw [hba]; exact hidx) h
    · simp at h

theorem ensureBlock_no_idOOB {m : GearDataManager} {mask : Nat} :
    m.ensureBlock mask ≠ .error .identifierOutOfRange := by
  intro h
  unfold GearDataManager.ensureBlock at h
  split at h
  · simp at h
  · split at h
    next e hnew =>
      injection h with h
      have := DataBlock.new_error_shape hnew
      rw [h] at this
      simp at this
    next => simp at h

theorem readLookupF_valid_ne_none {lk : Nat → LookupEntry} {gid : Nat}
    (hv : ValidId gid) : readLookupF lk gid ≠ none := by
  unfold readLookupF
  rw [if_pos ⟨hv.1, by have := hv.2; unfold lookupLen at *; omega⟩]
  simp

/-- `remove_all` never reports IdentifierOutOfRange for a valid identifier on
an invariant store. -/
theorem removeAll_no_idOOB {m : GearDataManager} {gearId : Nat}
    (hInv : ManagerInv m) (hvalid : ValidId gearId) :
    m.removeAll gearId ≠ .error .identifierOutOfRange := by
  intro h
  unfold GearDataManager.removeAll at h
  split at h
  next hread => exact readLookupF_valid_ne_none hvalid hread
  next entry hread =>
    split at h
    next index hidx => exact removeFromBlock_no_idOOB hInv h
    next => simp at h

/-- `add` never reports IdentifierOutOfRange for a valid identifier on an
invariant store. -/
theorem add_no_idOOB {m : GearDataManager} {t : RType} {gearId value : Nat}
    (hInv : ManagerInv m) (hvalid : ValidId gearId) :
    m.add t gearId value ≠ .error .identifierOutOfRange := by
  intro h
  simp only [GearDataManager.add] at h
  split at h
  next typeIndex htid =>
    split at h
    next hread => exact readLookupF_valid_ne_none hvalid hread
    next entry hread =>
      split at h
      next index hidx =>
        split at h
        · simp at h
        next mask hmask =>
          split at h
          next =>
            split at h
            next e hens =>
              injection h with h
              rw [h] at hens
              exact ensureBlock_no_idOOB hens
            next m1 di hens =>
              exact moveBetweenBlocks_no_idOOB (ensureBlock_ok hInv hens).1 h
          · simp at h
      next hidx =>
        split at h
        next e hens =>
          injection h with h
          rw [h] at hens
          exact ensureBlock_no_idOOB hens
        next m1 di hens => exact addToBlock_no_idOOB hvalid h
  next => simp at h

/-- `remove` never reports IdentifierOutOfRange for a valid identifier on an
invariant store. -/
theorem remove_no_idOOB {m : GearDataManager} {t : RType} {gearId : Nat}
    (hInv : ManagerInv m) (hvalid : ValidId gearId) :
    m.remove t gearId ≠ .error .identifierOutOfRange := by
  intro h
  simp only [GearDataManager.remove] at h
  split at h
  next typeIndex htid =>
    split at h
    next hread => exact readLookupF_valid_ne_none hvalid hread
    next entry hread =>
      split at h
      next index hidx =>
        split at h
        · simp at h
        next mask hmask =>
          split at h
          next => exact removeAll_no_idOOB hInv hvalid h
          next =>
            split at h
            next e hens =>
              injection h with h
              rw [h] at hens
              exact ensureBlock_no_idOOB hens
            next m1 di hens =>
              exact moveBetweenBlocks_no_idOOB (ensureBlock_ok hInv hens).1 h
      next => simp at h
  next => simp at h

/-- C10: every identifier representable as a nonzero 16-bit value (1 to
65,535) indexes the 65,535-entry lookup table in bounds at position
identifier − 1, and consequently no public operation (attach, detach,
remove_all) on a reachable (invariant-satisfying) store ever reports
IdentifierOutOfRange for such an identifier. -/
theorem c10_identifier_in_bounds (m : GearDataManager) (gearId : Nat)
    (hInv : ManagerInv m) (hvalid : ValidId gearId) :
    gearId - 1 < lookupLen ∧
    (∀ t value, m.add t gearId value ≠ .error .identifierOutOfRange) ∧
    (∀ t, m.remove t gearId ≠ .error .identifierOutOfRange) ∧
    m.removeAll gearId ≠ .error .identifierOutOfRange :=
  ⟨by have h1 := hvalid.1; have h2 := hvalid.2; unfold lookupLen at *; omega,
   fun t value => add_no_idOOB hInv hvalid,
   fun t => remove_no_idOOB hInv hvalid,
   removeAll_no_idOOB hInv hvalid⟩

theorem c10_identifier_in_bounds_witness :
    1 - 1 < lookupLen ∧
    (∀ t value, exampleStore.add t 1 value ≠ .error .identifierOutOfRange) ∧
    (∀ t, exampleStore.remove t 1 ≠ .error .identifierOutOfRange) ∧
    exampleStore.removeAll 1 ≠ .error .identifierOutOfRange :=
  c10_identifier_in_bounds exampleStore 1
    (@runOps_inv exampleOps GearDataManager.new exampleStore managerInv_new rfl)
    (by decide)
